import Mathlib

/-!
Verification of the proxy configuration agent (repository `pilot`).

The shallow embedding below follows `src/proxy/envoy/config.go`.  Helper
functions and data declarations that live in repository files not shipped
under `src/` (resources.go, route.go, policy.go, watcher.go, agent.go) are
modelled from the specification; each such definition carries a doc comment
starting with `Modelled from the spec:`.

Conventions of the embedding:
* Go strings of the shape `fmt.Sprintf("tcp://%s:%d", ip, port)` are
  modelled by the structured value `NetAddr` (the format is injective in
  `(ip, port)`, which the structure makes explicit).
* Go maps are modelled by association lists kept sorted by key; the two
  places where `config.go` *ranges* over a map whose iteration order is
  unspecified (the service-name set in `buildHTTPListener` and the
  port-indexed route-config map in `buildOutboundListeners`) take the
  enumeration as an explicit argument, so that theorems can quantify over
  every iteration order.
* Cluster names, produced in Go by distinct `fmt.Sprintf` schemes
  (`"in.%d"`, outbound service keys, fixed discovery names), are modelled
  by the inductive `ClusterName` whose constructors mirror those schemes.
-/

namespace Pilot

/-- A protobuf duration, as used by the mesh configuration. -/
structure Duration where
  Seconds : Int
  Nanos : Int
deriving DecidableEq, Repr

/-- Modelled from the spec: `protoDurationToMS` (resources.go, not under
src/) converts a protobuf duration to milliseconds. -/
def protoDurationToMS (d : Duration) : Int :=
  d.Seconds * 1000 + d.Nanos / 1000000

/-- Mesh-wide authentication policy: `authPolicy ∈ {None, MutualTLS}`. -/
inductive AuthPolicy where
  | none
  | mutualTLS
deriving DecidableEq, Repr

/-- The recognized mesh options consumed by the generator
(`proxyconfig.ProxyMeshConfig`). -/
structure MeshConfig where
  DiscoveryAddress : String
  DiscoveryRefreshDelay : Duration
  ConnectTimeout : Duration
  ProxyAdminPort : Nat
  ProxyListenPort : Nat
  ProxyHttpPort : Nat
  StatsdUdpAddress : String
  ZipkinAddress : String
  MixerAddress : String
  EgressProxyAddress : String
  AuthPolicy : AuthPolicy
  AuthCertsPath : String
deriving DecidableEq, Repr

/-- A sidecar proxy node identity (`proxy.Node`). -/
structure Node where
  IPAddress : String
  ID : String
  Domain : String
deriving DecidableEq, Repr

/-- Service port protocols (`model.Protocol`). -/
inductive Protocol where
  | http
  | http2
  | grpc
  | https
  | tcp
  | udp
deriving DecidableEq, Repr

/-- A named service port (`model.Port`). -/
structure Port where
  Name : String
  Port : Nat
  Protocol : Protocol
deriving DecidableEq, Repr

/-- A service in the catalog (`model.Service`).  `ExternalName` is empty for
mesh-internal services; `External()` tests it for non-emptiness. -/
structure Service where
  Hostname : String
  Address : String
  Ports : List Port
  ExternalName : String
deriving DecidableEq, Repr

/-- Modelled from the spec: `Service.External` (model package, not under
src/) reports whether the service is an external-name service. -/
def Service.External (s : Service) : Bool :=
  s.ExternalName ≠ ""

/-- A network endpoint of a service instance (`model.NetworkEndpoint`). -/
structure NetworkEndpoint where
  Address : String
  ServicePort : Port
  Port : Nat
deriving DecidableEq, Repr

/-- A co-located service instance (`model.ServiceInstance`). -/
structure ServiceInstance where
  Service : Service
  Endpoint : NetworkEndpoint
deriving DecidableEq, Repr

/-- URI match condition carried by a route rule. -/
inductive UriMatch where
  | prefixOf (s : String)
  | exactOf (s : String)
deriving DecidableEq, Repr

/-- A routing rule (`proxyconfig.RouteRule`), restricted to the fields the
generator consults. -/
structure RouteRule where
  Destination : String
  uri : Option UriMatch
  headers : List (String × String)
  WebsocketUpgrade : Bool
deriving DecidableEq, Repr

/-- Modelled from the spec: the Istio configuration store
(`model.IstioConfigStore`) is an external collaborator; the embedding
carries the answers of the two queries the generator performs. -/
structure IstioConfigStore where
  routeRulesBySource : List RouteRule
  routeRulesByDestination : List RouteRule
deriving DecidableEq, Repr

/-- Modelled from the spec: the environment snapshot (`proxy.Environment`)
bundles the mesh record with the read-only discovery query results for one
node (host-local instance list, service catalog, management port list). -/
structure Environment where
  Mesh : MeshConfig
  services : List Service
  hostInstances : List ServiceInstance
  managementPorts : List Port
  IstioConfigStore : IstioConfigStore
deriving DecidableEq, Repr

/-- The structured form of a Go listener address string
`fmt.Sprintf("tcp://%s:%d", ip, port)`. -/
structure NetAddr where
  ip : String
  port : Nat
deriving DecidableEq, Repr

/-- Kernel-computable strict lexicographic comparison of character lists,
by code point. -/
def strLtB : List Char → List Char → Bool
  | [], [] => false
  | [], _ :: _ => true
  | _ :: _, [] => false
  | a :: as, b :: bs =>
    if a.toNat < b.toNat then true
    else if b.toNat < a.toNat then false
    else strLtB as bs

/-- Strict lexicographic order on strings (by code point, as Go's byte
order on the UTF-8 encodings of the names the generator sorts). -/
def strLt (a b : String) : Prop :=
  strLtB a.data b.data = true

instance (a b : String) : Decidable (strLt a b) :=
  inferInstanceAs (Decidable (strLtB a.data b.data = true))

/-- Reflexive lexicographic order on strings. -/
def strLe (a b : String) : Prop :=
  strLtB b.data a.data = false

instance (a b : String) : Decidable (strLe a b) :=
  inferInstanceAs (Decidable (strLtB b.data a.data = false))

/-- Lexicographic order on addresses, used for canonical ordering. -/
def addrLe (a b : NetAddr) : Prop :=
  strLt a.ip b.ip ∨ (a.ip = b.ip ∧ a.port ≤ b.port)

instance (a b : NetAddr) : Decidable (addrLe a b) :=
  inferInstanceAs (Decidable (strLt a.ip b.ip ∨ (a.ip = b.ip ∧ a.port ≤ b.port)))

/-- Pair encoding of an address, used to derive injectivity. -/
def NetAddr.enc (a : NetAddr) : String × Nat :=
  (a.ip, a.port)

/-- Cluster names, one constructor per Go formatting scheme:
fixed discovery-service names, inbound `"in.%d"` names, and outbound
service-key names. -/
inductive ClusterName where
  | special (s : String)
  | inbound (port : Nat)
  | outbound (hostname : String) (port : Nat)
deriving DecidableEq, Repr

/-- Encoding used to order cluster names canonically. -/
def ClusterName.enc : ClusterName → Nat × String × Nat
  | .special s => (0, s, 0)
  | .inbound p => (1, "", p)
  | .outbound h p => (2, h, p)

/-- Lexicographic order on the triple encoding. -/
def lex3Le (x y : Nat × String × Nat) : Prop :=
  x.1 < y.1 ∨ (x.1 = y.1 ∧ (strLt x.2.1 y.2.1 ∨ (x.2.1 = y.2.1 ∧ x.2.2 ≤ y.2.2)))

/-- Lexicographic order on cluster names via their encoding. -/
def cnLe (a b : ClusterName) : Prop :=
  lex3Le a.enc b.enc

instance (a b : ClusterName) : Decidable (cnLe a b) :=
  inferInstanceAs (Decidable ((a.enc).1 < (b.enc).1 ∨ ((a.enc).1 = (b.enc).1 ∧
    (strLt (a.enc).2.1 (b.enc).2.1 ∨ ((a.enc).2.1 = (b.enc).2.1 ∧ (a.enc).2.2 ≤ (b.enc).2.2)))))

/-- An upstream host reference (`Host`), carrying the Go URL string. -/
structure Host where
  URL : String
deriving DecidableEq, Repr

/-- An Envoy cluster (`Cluster`), restricted to the fields the generator
sets. -/
structure Cluster where
  Name : ClusterName
  ServiceName : String := ""
  ClusterType : String
  ConnectTimeoutMs : Int := 0
  Hosts : List Host := []
  Features : String := ""
deriving DecidableEq, Repr

/-- A listener TLS context (`SSLContext`). -/
structure SSLContext where
  CertChainFile : String
  PrivateKeyFile : String
  CaCertFile : String
  RequireClientCertificate : Bool
deriving DecidableEq, Repr

/-- An HTTP route (`HTTPRoute`), with the match fields that determine
catch-all status, the referenced cluster name, and the private list of
cluster values collected for the cluster manager. -/
structure HTTPRoute where
  prefixPath : String := ""
  exactPath : String := ""
  headerMatches : List (String × String) := []
  HostRewrite : String := ""
  OpaqueConfig : List (String × String) := []
  UseWebsocket : Bool := false
  clustersRef : List Cluster := []
  Cluster : ClusterName
deriving DecidableEq, Repr

/-- Modelled from the spec: `HTTPRoute.CatchAll` (route.go, not under src/)
reports that the route matches every request: no header conditions, no
exact path, and the universal path root as its path-prefix match
(config.go lines 388-394 document the flag). -/
def HTTPRoute.CatchAll (r : HTTPRoute) : Bool :=
  r.headerMatches.isEmpty && r.exactPath == "" && r.prefixPath == "/"

/-- A virtual host (`VirtualHost`). -/
structure VirtualHost where
  Name : String
  Domains : List String
  Routes : List HTTPRoute
deriving DecidableEq, Repr

/-- A route configuration (`HTTPRouteConfig`). -/
structure HTTPRouteConfig where
  VirtualHosts : List VirtualHost
deriving DecidableEq, Repr

/-- The port-indexed collection of route configurations
(`HTTPRouteConfigs`, a Go map); modelled as an association list kept
strictly sorted by port. -/
abbrev HTTPRouteConfigs := List (Nat × HTTPRouteConfig)

/-- A TCP route (`TCPRoute`). -/
structure TCPRoute where
  Cluster : ClusterName
  DestinationIPList : List String
deriving DecidableEq, Repr

/-- A TCP proxy route configuration (`TCPRouteConfig`). -/
structure TCPRouteConfig where
  Routes : List TCPRoute
deriving DecidableEq, Repr

/-- RDS bootstrap block (`RDS`). -/
structure RDS where
  Cluster : String
  RouteConfigName : String
  RefreshDelayMs : Int
deriving DecidableEq, Repr

/-- An access-log sink (`AccessLog`). -/
structure AccessLog where
  Path : String
deriving DecidableEq, Repr

/-- Configurations carried by an HTTP filter: the terminal router filter or
the mixer filter (whose config records the node identity and the
comma-joined service list). -/
inductive HTTPFilterKind where
  | router
  | mixer (ip : String) (uid : String) (service : String)
deriving DecidableEq, Repr

/-- An HTTP filter entry (`HTTPFilter`). -/
structure HTTPFilter where
  FType : String
  Name : String
  Config : HTTPFilterKind
deriving DecidableEq, Repr

/-- The `http_connection_manager` network filter configuration
(`HTTPFilterConfig`). -/
structure HTTPFilterConfig where
  CodecType : String
  GenerateRequestID : Bool
  UseRemoteAddress : Bool
  StatName : String
  AccessLog : List AccessLog
  Filters : List HTTPFilter
  Tracing : Option String := Option.none
  RDS : Option RDS := Option.none
  RouteConfig : Option HTTPRouteConfig := Option.none
deriving DecidableEq, Repr

/-- The `tcp_proxy` network filter configuration (`TCPProxyFilterConfig`). -/
structure TCPProxyFilterConfig where
  StatName : String
  RouteConfig : TCPRouteConfig
deriving DecidableEq, Repr

/-- Configurations carried by a network filter. -/
inductive NetworkFilterKind where
  | http (c : HTTPFilterConfig)
  | tcpProxy (c : TCPProxyFilterConfig)
  | mixer (ip : String) (uid : String)
deriving DecidableEq, Repr

/-- A network filter entry (`NetworkFilter`). -/
structure NetworkFilter where
  FType : String
  Name : String
  Config : NetworkFilterKind
deriving DecidableEq, Repr

/-- An Envoy listener (`Listener`). -/
structure Listener where
  Name : String
  Address : NetAddr
  Filters : List NetworkFilter
  SSLContext : Option SSLContext := Option.none
  BindToPort : Bool := false
  UseOriginalDst : Bool := false
deriving DecidableEq, Repr

/-- `Listeners` is a slice of listener pointers. -/
abbrev Listeners := List Listener

/-- `Clusters` is a slice of cluster pointers. -/
abbrev Clusters := List Cluster

/-- The admin block (`Admin`). -/
structure Admin where
  AccessLogPath : String
  Address : NetAddr
deriving DecidableEq, Repr

/-- A discovery-service cluster entry (`DiscoveryCluster`). -/
structure DiscoveryCluster where
  Cluster : Cluster
  RefreshDelayMs : Int
deriving DecidableEq, Repr

/-- The LDS bootstrap block (`LDSCluster`). -/
structure LDSCluster where
  Cluster : String
  RefreshDelayMs : Int
deriving DecidableEq, Repr

/-- The cluster manager block (`ClusterManager`). -/
structure ClusterManager where
  Clusters : Clusters
  SDS : Option DiscoveryCluster := Option.none
  CDS : Option DiscoveryCluster := Option.none
deriving DecidableEq, Repr

/-- The tracing block produced for a Zipkin collector. -/
structure TracingConfig where
  collectorCluster : String
deriving DecidableEq, Repr

/-- The top-level proxy configuration (`Config`). -/
structure Config where
  Listeners : Listeners
  LDS : Option LDSCluster := Option.none
  Admin : Admin
  ClusterManager : ClusterManager
  StatsdUDPIPAddress : String
  Tracing : Option TracingConfig := Option.none
deriving DecidableEq, Repr

/-- Modelled from the spec: well-known names (resources.go, not under
src/). -/
def DefaultAccessLog : String := "/dev/stdout"

/-- Modelled from the spec: the local loopback address constant. -/
def LocalhostAddress : String := "127.0.0.1"

/-- Modelled from the spec: the wildcard bind address constant. -/
def WildcardAddress : String := "0.0.0.0"

/-- Modelled from the spec: discovery service cluster names. -/
def RDSName : ClusterName := ClusterName.special "rds"

/-- Modelled from the spec: SDS cluster name. -/
def SDSName : ClusterName := ClusterName.special "sds"

/-- Modelled from the spec: CDS cluster name. -/
def CDSName : ClusterName := ClusterName.special "cds"

/-- Modelled from the spec: LDS cluster name. -/
def LDSName : ClusterName := ClusterName.special "lds"

/-- Modelled from the spec: the cluster name of the Zipkin collector. -/
def ZipkinCollectorCluster : ClusterName := ClusterName.special "zipkin"

/-- Modelled from the spec: the name of the virtual original-destination
listener. -/
def VirtualListenerName : String := "virtual"

/-- Modelled from the spec: route-config name requesting all RDS routes. -/
def RDSAll : String := "http_proxy"

/-- Modelled from the spec: filter placement and name constants. -/
def decoder : String := "decoder"

/-- Modelled from the spec: the read placement of network filters. -/
def read : String := "read"

/-- Modelled from the spec: the both placement of network filters. -/
def both : String := "both"

/-- Modelled from the spec: the router filter name. -/
def router : String := "router"

/-- Modelled from the spec: the mixer filter name. -/
def MixerFilter : String := "mixer"

/-- Modelled from the spec: the HTTP connection manager filter name. -/
def HTTPConnectionManager : String := "http_connection_manager"

/-- Modelled from the spec: the TCP proxy filter name. -/
def TCPProxyFilter : String := "tcp_proxy"

/-- Modelled from the spec: the strict-DNS cluster type. -/
def ClusterTypeStrictDNS : String := "strict_dns"

/-- Modelled from the spec: the auto codec type constant. -/
def auto : String := "auto"

/-- Modelled from the spec: the ingress trace operation name. -/
def IngressTraceOperation : String := "ingress"

/-- Canonical ascending sort of strings. -/
def sortStrings (l : List String) : List String :=
  l.insertionSort strLe

/-- Modelled from the spec: `Listeners.normalize` (resources.go, not under
src/).  The source's header comment (config.go line 40) states that
configuration elements are de-duplicated and ordered in a canonical way;
listeners are keyed by their bind address: one listener per address (the
first occurrence wins), in ascending address order. -/
def normalizeListeners (l : Listeners) : Listeners :=
  ((l.map (fun x => x.Address)).dedup.insertionSort addrLe).filterMap
    (fun a => l.find? (fun x => x.Address == a))

/-- Modelled from the spec: `Clusters.normalize` (resources.go, not under
src/): clusters are keyed by name, one cluster per name (first occurrence
wins), in ascending name order. -/
def normalizeClusters (l : Clusters) : Clusters :=
  ((l.map (fun x => x.Name)).dedup.insertionSort cnLe).filterMap
    (fun n => l.find? (fun x => x.Name == n))

/-- Modelled from the spec: `Listeners.GetByAddress` (resources.go, not
under src/) returns the first listener with the given address, or nil. -/
def Listeners.GetByAddress (l : Listeners) (addr : NetAddr) : Option Listener :=
  l.find? (fun x => x.Address == addr)

/-- Order of virtual hosts inside a route config, keyed by name. -/
def vhLe (a b : VirtualHost) : Prop :=
  strLe a.Name b.Name

instance (a b : VirtualHost) : Decidable (vhLe a b) :=
  inferInstanceAs (Decidable (strLe a.Name b.Name))

/-- Modelled from the spec: `HTTPRouteConfigs.EnsurePort` (resources.go,
not under src/) returns the route config at a port, creating an empty one
if absent; callers then mutate it.  The embedding folds the mutation `f`
into the lookup, keeping the association list sorted by port. -/
def HTTPRouteConfigs.updatePort (port : Nat) (f : HTTPRouteConfig → HTTPRouteConfig) :
    HTTPRouteConfigs → HTTPRouteConfigs
  | [] => [(port, f ⟨[]⟩)]
  | (p, c) :: rest =>
    if port < p then (port, f ⟨[]⟩) :: (p, c) :: rest
    else if port = p then (p, f c) :: rest
    else (p, c) :: HTTPRouteConfigs.updatePort port f rest

/-- Modelled from the spec: the clusters referenced by a route config's
routes (resources.go, not under src/). -/
def HTTPRouteConfig.clustersOf (rc : HTTPRouteConfig) : Clusters :=
  (rc.VirtualHosts.map (fun vh => (vh.Routes.map (fun r => r.clustersRef)).flatten)).flatten

/-- Modelled from the spec: the clusters referenced by every route config
in the collection, in ascending port order of the backing map. -/
def HTTPRouteConfigs.clustersOf (cs : HTTPRouteConfigs) : Clusters :=
  (cs.map (fun pc => pc.2.clustersOf)).flatten

/-- Modelled from the spec: `HTTPRouteConfigs.normalize` (resources.go, not
under src/) puts each port's virtual hosts in canonical name order. -/
def HTTPRouteConfigs.normalize (cs : HTTPRouteConfigs) : HTTPRouteConfigs :=
  cs.map (fun pc => (pc.1, ⟨pc.2.VirtualHosts.insertionSort vhLe⟩))

/-- Modelled from the spec: `buildCluster` (resources.go, not under src/)
produces a strict-DNS cluster targeting the given address with the given
connect timeout. -/
def buildCluster (address : String) (name : ClusterName) (timeout : Duration) : Cluster :=
  { Name := name
    ClusterType := ClusterTypeStrictDNS
    ConnectTimeoutMs := protoDurationToMS timeout
    Hosts := [⟨"tcp://" ++ address⟩] }

/-- Modelled from the spec: `buildInboundCluster` (resources.go, not under
src/) produces a static cluster for a co-located endpoint port; HTTP2 and
GRPC ports enable the http2 feature. -/
def buildInboundCluster (port : Nat) (protocol : Protocol) (timeout : Duration) : Cluster :=
  { Name := ClusterName.inbound port
    ClusterType := "static"
    ConnectTimeoutMs := protoDurationToMS timeout
    Hosts := [⟨"tcp://" ++ LocalhostAddress ++ ":" ++ toString port⟩]
    Features := match protocol with
      | Protocol.http2 => "http2"
      | Protocol.grpc => "http2"
      | _ => "" }

/-- Modelled from the spec: `buildOutboundCluster` (resources.go, not under
src/) produces an SDS-discovered cluster for a service port. -/
def buildOutboundCluster (hostname : String) (servicePort : Port) : Cluster :=
  { Name := ClusterName.outbound hostname servicePort.Port
    ServiceName := hostname ++ "|" ++ servicePort.Name
    ClusterType := "sds" }

/-- Modelled from the spec: `buildDefaultRoute` (route.go, not under src/)
is the catch-all route to a cluster. -/
def buildDefaultRoute (cluster : Cluster) : HTTPRoute :=
  { prefixPath := "/"
    clustersRef := [cluster]
    Cluster := cluster.Name }

/-- Modelled from the spec: `buildHTTPRoute` (route.go, not under src/)
translates one route rule for a destination service port; a rule without
match conditions yields a catch-all route. -/
def buildHTTPRoute (rule : RouteRule) (servicePort : Port) : HTTPRoute :=
  let cluster := buildOutboundCluster rule.Destination servicePort
  let base : HTTPRoute :=
    { headerMatches := rule.headers
      UseWebsocket := rule.WebsocketUpgrade
      clustersRef := [cluster]
      Cluster := cluster.Name }
  match rule.uri with
  | Option.none => { base with prefixPath := "/" }
  | Option.some (UriMatch.prefixOf s) => { base with prefixPath := s }
  | Option.some (UriMatch.exactOf s) => { base with exactPath := s }

/-- Modelled from the spec: `buildInboundWebsocketRoute` (route.go, not
under src/) builds the websocket-enabled inbound route of a rule over the
given inbound cluster. -/
def buildInboundWebsocketRoute (rule : RouteRule) (cluster : Cluster) : HTTPRoute :=
  let base : HTTPRoute :=
    { headerMatches := rule.headers
      UseWebsocket := true
      clustersRef := [cluster]
      Cluster := cluster.Name }
  match rule.uri with
  | Option.none => { base with prefixPath := "/" }
  | Option.some (UriMatch.prefixOf s) => { base with prefixPath := s }
  | Option.some (UriMatch.exactOf s) => { base with exactPath := s }

/-- Modelled from the spec: `buildTCPRoute` (route.go, not under src/)
routes the given destination addresses to a cluster. -/
def buildTCPRoute (cluster : Cluster) (addresses : List String) : TCPRoute :=
  { Cluster := cluster.Name
    DestinationIPList := addresses }

/-- Modelled from the spec: `buildVirtualHost` (route.go, not under src/);
its domains include the sole domain name of the service (config.go lines
466-470). -/
def buildVirtualHost (service : Service) (servicePort : Port)
    (suffix : List String) (routes : List HTTPRoute) : VirtualHost :=
  { Name := service.Hostname ++ "|" ++ servicePort.Name
    Domains := [service.Hostname]
    Routes := routes }

/-- Modelled from the spec: `buildListenerSSLContext` (resources.go, not
under src/) derives the server TLS credentials from `authCertsPath`. -/
def buildListenerSSLContext (certsPath : String) : SSLContext :=
  { CertChainFile := certsPath ++ "/cert-chain.pem"
    PrivateKeyFile := certsPath ++ "/key.pem"
    CaCertFile := certsPath ++ "/root-cert.pem"
    RequireClientCertificate := true }

/-- Modelled from the spec: `buildZipkinTracing` (policy.go, not under
src/). -/
def buildZipkinTracing (mesh : MeshConfig) : TracingConfig :=
  { collectorCluster := "zipkin" }

/-- Modelled from the spec: `mixerHTTPRouteConfig` (mixer.go, not under
src/) records the node identity and the comma-joined service list. -/
def mixerHTTPRouteConfig (role : Node) (service : String) : HTTPFilterKind :=
  HTTPFilterKind.mixer role.IPAddress role.ID service

/-- Modelled from the spec: `mixerTCPConfig` (mixer.go, not under src/). -/
def mixerTCPConfig (role : Node) : NetworkFilterKind :=
  NetworkFilterKind.mixer role.IPAddress role.ID

/-- Modelled from the spec: `buildMixerCluster` (mixer.go, not under
src/). -/
def buildMixerCluster (mesh : MeshConfig) : Cluster :=
  buildCluster mesh.MixerAddress (ClusterName.special "mixer") mesh.ConnectTimeout

/-- Modelled from the spec: `buildMixerOpaqueConfig` (mixer.go, not under
src/). -/
def buildMixerOpaqueConfig (check report : Bool) : List (String × String) :=
  [("mixer_check", if check then "on" else "off"),
   ("mixer_report", if report then "on" else "off")]

/-- Modelled from the spec: `buildFaultFilters` (fault.go, not under src/)
collects fault-injection filters from the routes; the modelled routes carry
no fault policies, for which the collection is empty. -/
def buildFaultFilters (routeConfig : Option HTTPRouteConfig) : List HTTPFilter :=
  []

/-- Modelled from the spec: `applyClusterPolicy` (policy.go, not under
src/) rewrites one outbound cluster from the policy store; the modelled
cluster fields carry no policy data, so the rewrite is the identity. -/
def applyClusterPolicy (cluster : Cluster) : Cluster :=
  cluster

/-- The distinct service hostnames of the instance set, in first-occurrence
order: the canonical enumeration of the Go service-name set built in
`buildHTTPListener` (config.go lines 267-277). -/
def serviceHostnames (instances : List ServiceInstance) : List String :=
  (instances.map (fun i => i.Service.Hostname)).dedup

/-- `buildHTTPListener` (config.go lines 252-330).  `serviceEnum` is the
unspecified order in which Go ranges over the service-name set; the
function sorts it before joining, exactly as the source sorts its slice. -/
def buildHTTPListenerEnum (serviceEnum : List String) (mesh : MeshConfig) (role : Node)
    (instances : List ServiceInstance) (routeConfig : Option HTTPRouteConfig)
    (ip : String) (port : Nat) (rds : String) (useRemoteAddress : Bool) : Listener :=
  let filters : List HTTPFilter := buildFaultFilters routeConfig
  let filters := filters ++ [⟨decoder, router, HTTPFilterKind.router⟩]
  let service := String.intercalate "," (sortStrings serviceEnum)
  let filters := if mesh.MixerAddress ≠ "" then
      ⟨decoder, MixerFilter, mixerHTTPRouteConfig role service⟩ :: filters
    else filters
  let config : HTTPFilterConfig :=
    { CodecType := auto
      GenerateRequestID := true
      UseRemoteAddress := useRemoteAddress
      StatName := "http"
      AccessLog := [⟨DefaultAccessLog⟩]
      Filters := filters
      Tracing := if mesh.ZipkinAddress ≠ "" then Option.some IngressTraceOperation else Option.none
      RDS := if rds ≠ "" then
          Option.some ⟨"rds", rds, protoDurationToMS mesh.DiscoveryRefreshDelay⟩
        else Option.none
      RouteConfig := if rds ≠ "" then Option.none else routeConfig }
  { Name := "http_" ++ ip ++ "_" ++ toString port
    Address := ⟨ip, port⟩
    Filters := [⟨read, HTTPConnectionManager, NetworkFilterKind.http config⟩]
    BindToPort := true }

/-- `buildHTTPListener` under the canonical enumeration of the service-name
set. -/
def buildHTTPListener (mesh : MeshConfig) (role : Node)
    (instances : List ServiceInstance) (routeConfig : Option HTTPRouteConfig)
    (ip : String) (port : Nat) (rds : String) (useRemoteAddress : Bool) : Listener :=
  buildHTTPListenerEnum (serviceHostnames instances) mesh role instances routeConfig
    ip port rds useRemoteAddress

/-- `applyInboundAuth` (config.go lines 332-338). -/
def applyInboundAuth (listener : Listener) (mesh : MeshConfig) : Listener :=
  match mesh.AuthPolicy with
  | AuthPolicy.none => listener
  | AuthPolicy.mutualTLS =>
    { listener with SSLContext := Option.some (buildListenerSSLContext mesh.AuthCertsPath) }

/-- `buildTCPListener` (config.go lines 340-354). -/
def buildTCPListener (tcpConfig : TCPRouteConfig) (ip : String) (port : Nat) : Listener :=
  { Name := "tcp_" ++ ip ++ "_" ++ toString port
    Address := ⟨ip, port⟩
    Filters := [⟨read, TCPProxyFilter, NetworkFilterKind.tcpProxy ⟨"tcp", tcpConfig⟩⟩] }

/-- The rule loop of `buildDestinationHTTPRoutes` (config.go lines
381-400): build a route for each rule naming the destination, stopping
after the first catch-all route; the boolean is the `useDefaultRoute`
flag. -/
def destRouteRules (service : Service) (servicePort : Port) :
    List RouteRule → List HTTPRoute × Bool
  | [] => ([], true)
  | rule :: rest =>
    if rule.Destination = service.Hostname then
      let httpRoute := buildHTTPRoute rule servicePort
      if httpRoute.CatchAll then ([httpRoute], false)
      else
        let step := destRouteRules service servicePort rest
        (httpRoute :: step.1, step.2)
    else destRouteRules service servicePort rest

/-- `buildDestinationHTTPRoutes` (config.go lines 372-425). -/
def buildDestinationHTTPRoutes (service : Service) (servicePort : Port)
    (rules : List RouteRule) : List HTTPRoute :=
  match servicePort.Protocol with
  | Protocol.http | Protocol.http2 | Protocol.grpc =>
    let step := destRouteRules service servicePort rules
    if step.2 then
      let cluster := buildOutboundCluster service.Hostname servicePort
      step.1 ++ [buildDefaultRoute cluster]
    else step.1
  | Protocol.https =>
    if service.External then
      [buildDefaultRoute (buildOutboundCluster service.Hostname servicePort)]
    else []
  | Protocol.tcp => []
  | Protocol.udp => []

/-- The external-service rewrite of `buildOutboundHTTPRoutes` (config.go
lines 450-460): external-name routes are host-rewritten and their clusters
redirected to the egress proxy. -/
def externalizeRoute (mesh : MeshConfig) (service : Service) (route : HTTPRoute) : HTTPRoute :=
  { route with
    HostRewrite := service.Hostname
    clustersRef := route.clustersRef.map (fun c =>
      { c with
        ServiceName := ""
        ClusterType := ClusterTypeStrictDNS
        Hosts := [⟨"tcp://" ++ mesh.EgressProxyAddress⟩] }) }

/-- `buildOutboundHTTPRoutes` (config.go lines 427-477). -/
def buildOutboundHTTPRoutes (mesh : MeshConfig) (sidecar : Node)
    (instances : List ServiceInstance) (services : List Service)
    (config : IstioConfigStore) : HTTPRouteConfigs :=
  let suffix := sidecar.Domain.splitOn "."
  let rules := config.routeRulesBySource
  let httpConfigs := services.foldl (fun acc service =>
    service.Ports.foldl (fun acc servicePort =>
      if service.External ∧ mesh.EgressProxyAddress = "" then acc
      else
        let routes := buildDestinationHTTPRoutes service servicePort rules
        if routes.length > 0 then
          let routes := if service.External then
              routes.map (externalizeRoute mesh service)
            else routes
          let host := buildVirtualHost service servicePort suffix routes
          HTTPRouteConfigs.updatePort servicePort.Port
            (fun http => ⟨http.VirtualHosts ++ [host]⟩) acc
        else acc) acc) ([] : HTTPRouteConfigs)
  HTTPRouteConfigs.normalize httpConfigs

/-- `buildOutboundTCPListeners` (config.go lines 491-511). -/
def buildOutboundTCPListeners (mesh : MeshConfig) (services : List Service) :
    Listeners × Clusters :=
  services.foldl (fun acc service =>
    if service.External then acc
    else service.Ports.foldl (fun acc servicePort =>
      match servicePort.Protocol with
      | Protocol.tcp | Protocol.https =>
        let cluster := buildOutboundCluster service.Hostname servicePort
        let route := buildTCPRoute cluster [service.Address]
        let config : TCPRouteConfig := ⟨[route]⟩
        let listener := buildTCPListener config service.Address servicePort.Port
        (acc.1 ++ [listener], acc.2 ++ [cluster])
      | _ => acc) acc) (([], []) : Listeners × Clusters)

/-- `buildOutboundListeners` (config.go lines 356-370).  `portEnum` is the
unspecified order in which Go ranges over the port-indexed route-config
map; a valid enumeration is a permutation of the map's entries. -/
def buildOutboundListenersEnum (serviceEnum : List String)
    (portEnum : List (Nat × HTTPRouteConfig)) (mesh : MeshConfig) (sidecar : Node)
    (instances : List ServiceInstance) (services : List Service) : Listeners × Clusters :=
  let tcpPair := buildOutboundTCPListeners mesh services
  portEnum.foldl (fun acc pc =>
    (acc.1 ++ [buildHTTPListenerEnum serviceEnum mesh sidecar instances
        (Option.some pc.2) WildcardAddress pc.1 (toString pc.1) false],
     acc.2 ++ pc.2.clustersOf)) tcpPair

/-- `buildOutboundListeners` under the canonical enumerations. -/
def buildOutboundListeners (mesh : MeshConfig) (sidecar : Node)
    (instances : List ServiceInstance) (services : List Service)
    (config : IstioConfigStore) : Listeners × Clusters :=
  buildOutboundListenersEnum (serviceHostnames instances)
    (buildOutboundHTTPRoutes mesh sidecar instances services config)
    mesh sidecar instances services

/-- The per-instance body of the `buildInboundListeners` loop (config.go
lines 526-601): the inbound cluster is always collected; the listener is
an HTTP listener for HTTP-family ports (with websocket routes for HTTP and
mixer opaque configs when mixer is enabled), a TCP listener for TCP and
HTTPS ports (with a mixer network filter when enabled), and absent for
unsupported protocols. -/
def inboundStep (serviceEnum : List String) (mesh : MeshConfig)
    (sidecar : Node) (instances : List ServiceInstance) (config : IstioConfigStore)
    (acc : Listeners × Clusters) (inst : ServiceInstance) : Listeners × Clusters :=
  let endpoint := inst.Endpoint
    let servicePort := endpoint.ServicePort
    let protocol := servicePort.Protocol
    let cluster := buildInboundCluster endpoint.Port protocol mesh.ConnectTimeout
    let clusters := acc.2 ++ [cluster]
    match protocol with
    | Protocol.http | Protocol.http2 | Protocol.grpc =>
      let defaultRoute := buildDefaultRoute cluster
      let defaultRoute := if mesh.MixerAddress ≠ "" then
          { defaultRoute with OpaqueConfig := buildMixerOpaqueConfig true false }
        else defaultRoute
      let wsRoutes := if protocol = Protocol.http then
          (config.routeRulesByDestination.filter (fun r => r.WebsocketUpgrade)).map
            (fun rule =>
              let websocketRoute := buildInboundWebsocketRoute rule cluster
              if mesh.MixerAddress ≠ "" then
                { websocketRoute with OpaqueConfig := buildMixerOpaqueConfig true false }
              else websocketRoute)
        else []
      let host : VirtualHost :=
        { Name := "inbound|" ++ toString endpoint.Port
          Domains := ["*"]
          Routes := wsRoutes ++ [defaultRoute] }
      let rcfg : HTTPRouteConfig := ⟨[host]⟩
      (acc.1 ++ [buildHTTPListenerEnum serviceEnum mesh sidecar instances
          (Option.some rcfg) endpoint.Address endpoint.Port "" false], clusters)
    | Protocol.tcp | Protocol.https =>
      let listener := buildTCPListener ⟨[buildTCPRoute cluster [endpoint.Address]]⟩
        endpoint.Address endpoint.Port
      let listener := if mesh.MixerAddress ≠ "" then
          { listener with Filters := ⟨both, MixerFilter, mixerTCPConfig sidecar⟩ :: listener.Filters }
        else listener
      (acc.1 ++ [listener], clusters)
    | Protocol.udp => (acc.1, clusters)

/-- `buildInboundListeners` (config.go lines 517-608), parameterized by the
service-name enumeration handed to `buildHTTPListener`. -/
def buildInboundListenersEnum (serviceEnum : List String) (mesh : MeshConfig)
    (sidecar : Node) (instances : List ServiceInstance)
    (config : IstioConfigStore) : Listeners × Clusters :=
  let lc := instances.foldl (inboundStep serviceEnum mesh sidecar instances config)
    (([], []) : Listeners × Clusters)
  (lc.1.map (fun l => applyInboundAuth l mesh), lc.2)

/-- `buildInboundListeners` under the canonical enumeration. -/
def buildInboundListeners (mesh : MeshConfig) (sidecar : Node)
    (instances : List ServiceInstance) (config : IstioConfigStore) :
    Listeners × Clusters :=
  buildInboundListenersEnum (serviceHostnames instances) mesh sidecar instances config

/-- `buildMgmtPortListeners` (config.go lines 626-649). -/
def buildMgmtPortListeners (mesh : MeshConfig) (managementPorts : List Port)
    (managementIP : String) : Listeners × Clusters :=
  managementPorts.foldl (fun acc mPort =>
    match mPort.Protocol with
    | Protocol.http | Protocol.http2 | Protocol.grpc | Protocol.tcp | Protocol.https =>
      let cluster := buildInboundCluster mPort.Port Protocol.tcp mesh.ConnectTimeout
      let listener := buildTCPListener ⟨[buildTCPRoute cluster [managementIP]]⟩
        managementIP mPort.Port
      (acc.1 ++ [listener], acc.2 ++ [cluster])
    | Protocol.udp => acc) (([], []) : Listeners × Clusters)

/-- The management-listener collision loop of `buildSidecar` (config.go
lines 178-189): a management listener whose address is already taken in
the accumulated listener list is skipped together with its cluster. -/
def appendMgmt : Listeners → Clusters → List (Listener × Cluster) → Listeners × Clusters
  | listeners, clusters, [] => (listeners, clusters)
  | listeners, clusters, (m, c) :: rest =>
    match Listeners.GetByAddress listeners m.Address with
    | Option.some _ => appendMgmt listeners clusters rest
    | Option.none => appendMgmt (listeners ++ [m]) (clusters ++ [c]) rest

/-- The virtual listener appended by `buildSidecar` (config.go lines
197-203): it binds the wildcard address on the iptables-redirect port with
original-destination routing and no filters. -/
def virtualListener (mesh : MeshConfig) : Listener :=
  { Name := VirtualListenerName
    Address := ⟨WildcardAddress, mesh.ProxyListenPort⟩
    Filters := []
    BindToPort := true
    UseOriginalDst := true }

/-- The inbound, outbound, and collision-filtered management listeners and
clusters accumulated by `buildSidecar` (config.go lines 166-189), before
port redirection is applied. -/
def sidecarBaseEnum (serviceEnum : List String)
    (portEnum : List (Nat × HTTPRouteConfig)) (env : Environment) (sidecar : Node) :
    Listeners × Clusters :=
  let instances := env.hostInstances
  let services := env.services
  let inPair := buildInboundListenersEnum serviceEnum env.Mesh sidecar instances env.IstioConfigStore
  let outPair := buildOutboundListenersEnum serviceEnum portEnum env.Mesh sidecar instances services
  let mgmtPair := buildMgmtPortListeners env.Mesh env.managementPorts sidecar.IPAddress
  appendMgmt (inPair.1 ++ outPair.1) (inPair.2 ++ outPair.2) (mgmtPair.1.zip mgmtPair.2)

/-- `buildSidecar` (config.go lines 158-218), parameterized by the two map
enumerations. -/
def buildSidecarEnum (serviceEnum : List String)
    (portEnum : List (Nat × HTTPRouteConfig)) (env : Environment) (sidecar : Node) :
    Listeners × Clusters :=
  let instances := env.hostInstances
  let services := env.services
  let start : Listeners × Clusters := ([], [])
  let lc :=
    if env.Mesh.ProxyListenPort > 0 then
      let base := sidecarBaseEnum serviceEnum portEnum env sidecar
      let listeners := base.1.map (fun l => { l with BindToPort := false })
      (listeners ++ [virtualListener env.Mesh], base.2)
    else start
  let lc :=
    if env.Mesh.ProxyHttpPort > 0 then
      let httpOutbound := buildOutboundHTTPRoutes env.Mesh sidecar instances services env.IstioConfigStore
      let clusters := lc.2 ++ httpOutbound.clustersOf
      let listeners := lc.1 ++ [buildHTTPListenerEnum serviceEnum env.Mesh sidecar instances
          Option.none LocalhostAddress env.Mesh.ProxyHttpPort RDSAll false]
      (listeners, clusters)
    else lc
  (normalizeListeners lc.1, normalizeClusters lc.2)

/-- `buildSidecar` under the canonical enumerations. -/
def buildSidecar (env : Environment) (sidecar : Node) : Listeners × Clusters :=
  buildSidecarEnum (serviceHostnames env.hostInstances)
    (buildOutboundHTTPRoutes env.Mesh sidecar env.hostInstances env.services env.IstioConfigStore)
    env sidecar

/-- `buildConfig` (config.go lines 74-113). -/
def buildConfig (listeners : Listeners) (clusters : Clusters) (lds : Bool)
    (mesh : MeshConfig) : Config :=
  let out : Config :=
    { Listeners := listeners
      Admin :=
        { AccessLogPath := DefaultAccessLog
          Address := ⟨LocalhostAddress, mesh.ProxyAdminPort⟩ }
      ClusterManager :=
        { Clusters := clusters ++ [buildCluster mesh.DiscoveryAddress RDSName mesh.ConnectTimeout]
          SDS := Option.some
            ⟨buildCluster mesh.DiscoveryAddress SDSName mesh.ConnectTimeout,
             protoDurationToMS mesh.DiscoveryRefreshDelay⟩
          CDS := Option.some
            ⟨buildCluster mesh.DiscoveryAddress CDSName mesh.ConnectTimeout,
             protoDurationToMS mesh.DiscoveryRefreshDelay⟩ }
      StatsdUDPIPAddress := mesh.StatsdUdpAddress }
  let out := if lds then
      { out with
        LDS := Option.some ⟨"lds", protoDurationToMS mesh.DiscoveryRefreshDelay⟩
        ClusterManager := { out.ClusterManager with
          Clusters := out.ClusterManager.Clusters ++
            [buildCluster mesh.DiscoveryAddress LDSName mesh.ConnectTimeout] } }
    else out
  if mesh.ZipkinAddress ≠ "" then
    { out with
      ClusterManager := { out.ClusterManager with
        Clusters := out.ClusterManager.Clusters ++
          [buildCluster mesh.ZipkinAddress ZipkinCollectorCluster mesh.ConnectTimeout] }
      Tracing := Option.some (buildZipkinTracing mesh) }
  else out

/-- Emit a bracketed comma-joined list. -/
def emitList (xs : List String) : String :=
  "[" ++ String.intercalate "," xs ++ "]"

/-- Emit a list of string pairs. -/
def emitPairs (l : List (String × String)) : String :=
  emitList (l.map (fun p => p.1 ++ "=" ++ p.2))

/-- Emit an optional serialized component. -/
def emitOption : Option String → String
  | Option.none => "nil"
  | Option.some s => s

/-- The Go string rendering of a structured address. -/
def NetAddr.emit (a : NetAddr) : String :=
  "tcp://" ++ a.ip ++ ":" ++ toString a.port

/-- The Go string rendering of a cluster name. -/
def ClusterName.emit : ClusterName → String
  | .special s => s
  | .inbound p => "in." ++ toString p
  | .outbound h p => "out." ++ h ++ "." ++ toString p

/-- Serialization of a cluster. -/
def Cluster.emit (c : Cluster) : String :=
  "(cluster " ++ c.Name.emit ++ " " ++ c.ServiceName ++ " " ++ c.ClusterType ++ " " ++
    toString c.ConnectTimeoutMs ++ " " ++ emitList (c.Hosts.map (fun h => h.URL)) ++ " " ++
    c.Features ++ ")"

/-- Serialization of an HTTP route. -/
def HTTPRoute.emit (r : HTTPRoute) : String :=
  "(route " ++ r.prefixPath ++ " " ++ r.exactPath ++ " " ++ emitPairs r.headerMatches ++ " " ++
    r.Cluster.emit ++ " " ++ r.HostRewrite ++ " " ++ emitPairs r.OpaqueConfig ++ " " ++
    toString r.UseWebsocket ++ " " ++ emitList (r.clustersRef.map Cluster.emit) ++ ")"

/-- Serialization of a virtual host. -/
def VirtualHost.emit (vh : VirtualHost) : String :=
  "(vhost " ++ vh.Name ++ " " ++ emitList vh.Domains ++ " " ++
    emitList (vh.Routes.map HTTPRoute.emit) ++ ")"

/-- Serialization of a route config. -/
def HTTPRouteConfig.emit (rc : HTTPRouteConfig) : String :=
  "(routeconfig " ++ emitList (rc.VirtualHosts.map VirtualHost.emit) ++ ")"

/-- Serialization of a TCP route config. -/
def TCPRouteConfig.emit (rc : TCPRouteConfig) : String :=
  "(tcproutes " ++ emitList (rc.Routes.map (fun r =>
    "(tcproute " ++ r.Cluster.emit ++ " " ++ emitList r.DestinationIPList ++ ")")) ++ ")"

/-- Serialization of an HTTP filter. -/
def HTTPFilter.emit (f : HTTPFilter) : String :=
  "(httpfilter " ++ f.FType ++ " " ++ f.Name ++ " " ++
    (match f.Config with
      | HTTPFilterKind.router => "(router)"
      | HTTPFilterKind.mixer ip uid svc => "(mixer " ++ ip ++ " " ++ uid ++ " " ++ svc ++ ")") ++ ")"

/-- Serialization of the HTTP connection manager config. -/
def HTTPFilterConfig.emit (c : HTTPFilterConfig) : String :=
  "(httpconnmgr " ++ c.CodecType ++ " " ++ toString c.GenerateRequestID ++ " " ++
    toString c.UseRemoteAddress ++ " " ++ c.StatName ++ " " ++
    emitList (c.AccessLog.map (fun a => a.Path)) ++ " " ++
    emitList (c.Filters.map HTTPFilter.emit) ++ " " ++ emitOption c.Tracing ++ " " ++
    emitOption (c.RDS.map (fun r =>
      "(rds " ++ r.Cluster ++ " " ++ r.RouteConfigName ++ " " ++ toString r.RefreshDelayMs ++ ")")) ++
    " " ++ emitOption (c.RouteConfig.map HTTPRouteConfig.emit) ++ ")"

/-- Serialization of a network filter. -/
def NetworkFilter.emit (f : NetworkFilter) : String :=
  "(netfilter " ++ f.FType ++ " " ++ f.Name ++ " " ++
    (match f.Config with
      | NetworkFilterKind.http c => c.emit
      | NetworkFilterKind.tcpProxy c => "(tcpproxy " ++ c.StatName ++ " " ++ c.RouteConfig.emit ++ ")"
      | NetworkFilterKind.mixer ip uid => "(mixertcp " ++ ip ++ " " ++ uid ++ ")") ++ ")"

/-- Serialization of an SSL context. -/
def SSLContext.emit (s : SSLContext) : String :=
  "(ssl " ++ s.CertChainFile ++ " " ++ s.PrivateKeyFile ++ " " ++ s.CaCertFile ++ " " ++
    toString s.RequireClientCertificate ++ ")"

/-- Serialization of a listener. -/
def Listener.emit (l : Listener) : String :=
  "(listener " ++ l.Name ++ " " ++ l.Address.emit ++ " " ++
    emitList (l.Filters.map NetworkFilter.emit) ++ " " ++
    emitOption (l.SSLContext.map SSLContext.emit) ++ " " ++
    toString l.BindToPort ++ " " ++ toString l.UseOriginalDst ++ ")"

/-- `Config.Write` (config.go lines 64-72): the serialized payload bytes of
a configuration.  The Go code emits canonical JSON through
`json.MarshalIndent`; the embedding emits a canonical structural rendering
— all that matters to the verified claims is that it is a function of the
configuration value, injective on the modelled fields. -/
def Config.Write (conf : Config) : String :=
  "(config " ++ emitList (conf.Listeners.map Listener.emit) ++ " " ++
    emitOption (conf.LDS.map (fun l =>
      "(lds " ++ l.Cluster ++ " " ++ toString l.RefreshDelayMs ++ ")")) ++ " " ++
    "(admin " ++ conf.Admin.AccessLogPath ++ " " ++ conf.Admin.Address.emit ++ ")" ++ " " ++
    "(clustermgr " ++ emitList (conf.ClusterManager.Clusters.map Cluster.emit) ++ " " ++
    emitOption (conf.ClusterManager.SDS.map (fun d =>
      "(sds " ++ d.Cluster.emit ++ " " ++ toString d.RefreshDelayMs ++ ")")) ++ " " ++
    emitOption (conf.ClusterManager.CDS.map (fun d =>
      "(cds " ++ d.Cluster.emit ++ " " ++ toString d.RefreshDelayMs ++ ")")) ++ ")" ++ " " ++
    conf.StatsdUDPIPAddress ++ " " ++
    emitOption (conf.Tracing.map (fun t => "(tracing " ++ t.collectorCluster ++ ")")) ++ ")"

/-- Modelled from the spec: the artifact fingerprint is a stable hash over
the payload bytes (§4.1); stability across processes is not required. -/
def fingerprint (payload : String) : Nat :=
  payload.data.foldl (fun h c => (h * 131 + c.toNat) % 1000000007) 5381

/-- The full sidecar generation pipeline with explicit map enumerations:
the listener pass and the cluster pass each recompute `buildSidecar`
(config.go lines 116-152), so each pass ranges over the two maps
independently. -/
def renderEnum (serviceEnumL : List String) (portEnumL : List (Nat × HTTPRouteConfig))
    (serviceEnumC : List String) (portEnumC : List (Nat × HTTPRouteConfig))
    (env : Environment) (node : Node) : String :=
  let listeners := (buildSidecarEnum serviceEnumL portEnumL env node).1
  let clusters := (buildSidecarEnum serviceEnumC portEnumC env node).2
  let clusters := clusters.map applyClusterPolicy
  let clusters := if env.Mesh.MixerAddress ≠ "" then
      clusters ++ [buildMixerCluster env.Mesh]
    else clusters
  Config.Write (buildConfig listeners clusters true env.Mesh)

/-- Modelled from the spec: `Render` (§4.1, §6; the generator entry point
lives in the watcher, not under src/) renders the sidecar configuration of
a node from an environment snapshot and serializes it with
`Config.Write`. -/
def render (env : Environment) (node : Node) : String :=
  let serviceEnum := serviceHostnames env.hostInstances
  let portEnum := buildOutboundHTTPRoutes env.Mesh node env.hostInstances env.services env.IstioConfigStore
  renderEnum serviceEnum portEnum serviceEnum portEnum env node

/-- A filesystem operation observed during materialization. -/
inductive FsOp where
  | create (path : String)
  | write (path : String) (data : String)
  | rename (src : String) (dst : String)
deriving DecidableEq, Repr

/-- A filesystem: an association of paths to contents. -/
abbrev FileSystem := List (String × String)

/-- Look up the contents at a path. -/
def FileSystem.contentsAt (fs : FileSystem) (p : String) : Option String :=
  (fs.find? (fun e => e.1 == p)).map (fun e => e.2)

/-- Create (or truncate) the file at a path with the given contents. -/
def FileSystem.setFile (fs : FileSystem) (p : String) (data : String) : FileSystem :=
  (p, data) :: fs.filter (fun e => e.1 ≠ p)

/-- `Config.WriteFile` (config.go lines 43-62): `os.Create(fname)` followed
by `conf.Write(file)` — the file at `fname` is created or truncated and the
serialized payload written to it; the returned trace lists the operations
performed. -/
def Config.WriteFile (conf : Config) (fname : String) (fs : FileSystem) :
    FileSystem × List FsOp :=
  (fs.setFile fname conf.Write, [FsOp.create fname, FsOp.write fname conf.Write])

/-- Modelled from the spec: the watcher (not under src/) materializes epoch
`e` under the scratch directory as `envoy-rev<e>.json` (§6). -/
def configFileName (dir : String) (epoch : Nat) : String :=
  dir ++ "/envoy-rev" ++ toString epoch ++ ".json"

/-- Modelled from the spec: the epoch table (§4.2; agent.go is not under
src/) tracks the last issued epoch id. -/
structure EpochTable where
  lastIssued : Int
deriving DecidableEq, Repr

/-- Modelled from the spec: `Allocate() → epoch` returns `lastIssued+1` and
updates `lastIssued`; it never reuses an id (§4.2). -/
def EpochTable.Allocate (t : EpochTable) : Int × EpochTable :=
  (t.lastIssued + 1, { lastIssued := t.lastIssued + 1 })

/-- Modelled from the spec: the fresh epoch table of a new process; the
first allocation yields epoch 0 (§8, boundary behaviors). -/
def EpochTable.init : EpochTable :=
  { lastIssued := -1 }

/-- Modelled from the spec: per-epoch status (§3, EpochRecord). -/
inductive EpochStatus where
  | Starting
  | Running
  | Draining
  | Exited (code : Int)
  | Failed
deriving DecidableEq, Repr

/-- Modelled from the spec: an EpochRecord `{epoch, artifact, proc,
status}`, with the artifact represented by its fingerprint (§3). -/
structure EpochRecord where
  epoch : Int
  fingerprint : Nat
  status : EpochStatus
deriving DecidableEq, Repr

/-- Modelled from the spec: the Agent state owned by the single reconcile
worker (§4.4): the epoch table, the epoch records, and the fingerprint of
the current epoch. -/
structure AgentState where
  table : EpochTable
  records : List EpochRecord
  current : Option Int
  currentFingerprint : Option Nat
deriving DecidableEq, Repr

/-- Modelled from the spec: the fresh Agent state after process start. -/
def AgentState.init : AgentState :=
  { table := EpochTable.init
    records := []
    current := Option.none
    currentFingerprint := Option.none }

/-- Observable events of one reconcile pass, in emission order. -/
inductive AgentEvent where
  | rendered (fp : Nat)
  | allocated (e : Int)
  | running (e : Int)
  | draining (e : Int)
deriving DecidableEq, Repr

/-- Modelled from the spec: one reconcile pass (§4.4, steps 1-8, success
path): snapshot and render, compare the fingerprint to the current one and
stop on a match, otherwise allocate the next epoch, start it, transition
it to Running immediately, and only then transition every prior Running
epoch to Draining. -/
def reconcile (env : Environment) (node : Node) (s : AgentState) :
    AgentState × List AgentEvent :=
  let fp := fingerprint (render env node)
  if s.currentFingerprint = Option.some fp then (s, [AgentEvent.rendered fp])
  else
    let alloc := s.table.Allocate
    let e := alloc.1
    let drained := s.records.filter (fun r => r.status = EpochStatus.Running)
    let records := (s.records.map (fun r =>
        if r.status = EpochStatus.Running then { r with status := EpochStatus.Draining }
        else r)) ++ [⟨e, fp, EpochStatus.Running⟩]
    ({ table := alloc.2
       records := records
       current := Option.some e
       currentFingerprint := Option.some fp },
     [AgentEvent.rendered fp, AgentEvent.allocated e, AgentEvent.running e] ++
       drained.map (fun r => AgentEvent.draining r.epoch))

/-- Modelled from the spec: an execution of the Agent — the single worker
processes a sequence of environment snapshots, one reconcile pass each,
concatenating the observable event traces (§4.4, §5). -/
def runAgent (node : Node) (s : AgentState) : List Environment → AgentState × List AgentEvent
  | [] => (s, [])
  | env :: rest =>
    let step := reconcile env node s
    let next := runAgent node step.1 rest
    (next.1, step.2 ++ next.2)


/-- The sequence of epoch ids returned by `n` successive allocations from a
table. -/
def allocSeq (t : EpochTable) : Nat → List Int
  | 0 => []
  | n + 1 =>
    let a := t.Allocate
    a.1 :: allocSeq a.2 n

/-- Whether a filesystem operation is a rename. -/
def FsOp.isRename : FsOp → Bool
  | .rename _ _ => true
  | _ => false

/-- Whether an agent event is an epoch allocation. -/
def AgentEvent.isAllocation : AgentEvent → Bool
  | .allocated _ => true
  | _ => false

/-- The routes built from the rules that name the destination service, in
rule order. -/
def builtRoutes (service : Service) (servicePort : Port) (rules : List RouteRule) :
    List HTTPRoute :=
  (rules.filter (fun r => r.Destination = service.Hostname)).map
    (fun r => buildHTTPRoute r servicePort)

/-- The route list claim C10 predicts for an HTTP-family port, stated
declaratively: build a route per rule naming the destination, truncate at
the first catch-all route, and append the default route exactly when no
built route is a catch-all. -/
def destRoutesPerClaim (service : Service) (servicePort : Port)
    (rules : List RouteRule) : List HTTPRoute :=
  let built := builtRoutes service servicePort rules
  let pre := built.takeWhile (fun r => !r.CatchAll)
  match built.dropWhile (fun r => !r.CatchAll) with
  | [] => pre ++ [buildDefaultRoute (buildOutboundCluster service.Hostname servicePort)]
  | c :: _ => pre ++ [c]

/-- The management-listener selection claim C8 predicts: drop exactly the
management pairs whose address collides with a service (inbound or
outbound) listener. -/
def mgmtNonColliding (svc : Listeners) (pairs : List (Listener × Cluster)) :
    List (Listener × Cluster) :=
  pairs.filter (fun mc => (Listeners.GetByAddress svc mc.1.Address).isNone)

/-- The collision-history form of the management loop: keep a pair when
its address does not collide, and record the kept address as colliding for
the remaining pairs. -/
def mgmtKeep (collide : NetAddr → Bool) : List (Listener × Cluster) → List (Listener × Cluster)
  | [] => []
  | (m, c) :: rest =>
    if collide m.Address then mgmtKeep collide rest
    else (m, c) :: mgmtKeep (fun a => collide a || (m.Address == a)) rest

/-- The pairwise ordering property claimed by C5: in a trace, `Running` of
a later epoch always precedes `Draining` of any earlier epoch. -/
def pairwiseHitless (tr : List AgentEvent) : Prop :=
  ∀ (i j : Nat) (e e₂ : Int), e < e₂ →
    tr.get? i = Option.some (AgentEvent.draining e) →
    tr.get? j = Option.some (AgentEvent.running e₂) → j < i

/-- The overlap property: every `Draining` event is preceded in the trace
by a `Running` event of a strictly later epoch. -/
def drainPreceded (tr : List AgentEvent) : Prop :=
  ∀ (pre post : List AgentEvent) (e : Int),
    tr = pre ++ AgentEvent.draining e :: post →
    ∃ e₂, e < e₂ ∧ AgentEvent.running e₂ ∈ pre

/-- `sidecarBase` under the canonical enumerations: the service and
(collision-filtered) management listeners of `buildSidecar` before port
redirection. -/
def sidecarBase (env : Environment) (node : Node) : Listeners × Clusters :=
  sidecarBaseEnum (serviceHostnames env.hostInstances)
    (buildOutboundHTTPRoutes env.Mesh node env.hostInstances env.services env.IstioConfigStore)
    env node

/-! ### Concrete fixtures used by witnesses and counterexamples -/

/-- A one-second duration. -/
def dur1 : Duration := ⟨1, 0⟩

/-- A small mesh configuration fixture. -/
def mesh0 : MeshConfig :=
  { DiscoveryAddress := "istio-pilot:8080"
    DiscoveryRefreshDelay := dur1
    ConnectTimeout := dur1
    ProxyAdminPort := 15000
    ProxyListenPort := 15001
    ProxyHttpPort := 0
    StatsdUdpAddress := "statsd:9125"
    ZipkinAddress := ""
    MixerAddress := ""
    EgressProxyAddress := ""
    AuthPolicy := AuthPolicy.none
    AuthCertsPath := "/etc/certs" }

/-- A sidecar node fixture. -/
def node0 : Node := ⟨"10.0.0.1", "sidecar~10.0.0.1", "default.svc.cluster.local"⟩

/-- An HTTP service port fixture. -/
def portHttp80 : Port := ⟨"http", 80, Protocol.http⟩

/-- A service fixture. -/
def svcA : Service := ⟨"a.default.svc.cluster.local", "10.1.0.1", [portHttp80], ""⟩

/-- A second service fixture. -/
def svcB : Service := ⟨"b.default.svc.cluster.local", "10.1.0.2", [portHttp80], ""⟩

/-- A co-located instance of `svcA` on the node. -/
def instA : ServiceInstance := ⟨svcA, ⟨"10.0.0.1", portHttp80, 8080⟩⟩

/-- A co-located instance of `svcB` on the node. -/
def instB : ServiceInstance := ⟨svcB, ⟨"10.0.0.1", portHttp80, 8081⟩⟩

/-- An empty environment fixture. -/
def env0 : Environment :=
  { Mesh := mesh0
    services := []
    hostInstances := []
    managementPorts := []
    IstioConfigStore := ⟨[], []⟩ }

/-- `env0` with a different statsd sink (different payload). -/
def env1 : Environment := { env0 with Mesh := { mesh0 with StatsdUdpAddress := "statsd:1" } }

/-- `env0` with a third statsd sink. -/
def env2 : Environment := { env0 with Mesh := { mesh0 with StatsdUdpAddress := "statsd:2" } }

/-- An environment with two services and two co-located instances. -/
def envTwo : Environment :=
  { Mesh := mesh0
    services := [svcA, svcB]
    hostInstances := [instA, instB]
    managementPorts := [⟨"mgmt", 9090, Protocol.tcp⟩]
    IstioConfigStore := ⟨[], []⟩ }

/-- `env0` with the HTTP proxy port enabled. -/
def envHttp : Environment := { env0 with Mesh := { mesh0 with ProxyHttpPort := 15002 } }

/-- A small configuration fixture. -/
def cfg0 : Config := buildConfig [] [] true mesh0

/-- A mesh fixture with mutual TLS enabled. -/
def meshTLS : MeshConfig := { mesh0 with AuthPolicy := AuthPolicy.mutualTLS }

/-- A rule naming `svcA` with a prefix match. -/
def ruleX : RouteRule := ⟨svcA.Hostname, Option.some (UriMatch.prefixOf "/x"), [], false⟩

/-- A rule naming another destination. -/
def ruleY : RouteRule := ⟨"other.default.svc.cluster.local", Option.none, [], false⟩

/-- A rule naming `svcA` with no match conditions: its route is a
catch-all. -/
def ruleZ : RouteRule := ⟨svcA.Hostname, Option.none, [], false⟩

/-- A rule naming `svcA` placed after the catch-all rule. -/
def ruleW : RouteRule := ⟨svcA.Hostname, Option.some (UriMatch.exactOf "/w"), [], false⟩

/-- A management port fixture. -/
def mgmtPort9000 : Port := ⟨"m", 9000, Protocol.tcp⟩

/-- Management listeners and clusters built from a duplicated management
port list. -/
def mgmtDupPair : Listeners × Clusters :=
  buildMgmtPortListeners mesh0 [mgmtPort9000, mgmtPort9000] "10.0.0.1"

/-- A single management pair standing for an already-built service
listener at 10.0.0.1:9000. -/
def mgmtSvcPair : Listeners × Clusters :=
  buildMgmtPortListeners mesh0 [⟨"s", 9000, Protocol.tcp⟩] "10.0.0.1"

/-- Management listeners for two distinct ports, the first colliding with
the service listener of `mgmtSvcPair`. -/
def mgmtTwoPair : Listeners × Clusters :=
  buildMgmtPortListeners mesh0 [⟨"m1", 9000, Protocol.tcp⟩, ⟨"m2", 9001, Protocol.tcp⟩] "10.0.0.1"

/-! ### Order properties of the canonical orderings -/

theorem char_toNat_inj {a b : Char} (h : a.toNat = b.toNat) : a = b := by
  have hv : a.val = b.val := by
    apply UInt32.ext
    simpa [UInt32.toNat] using h
  exact Char.ext hv

theorem strLtB_irrefl : ∀ as : List Char, strLtB as as = false := by
  intro as
  induction as with
  | nil => rfl
  | cons a rest ih => simp [strLtB, ih]

theorem strLtB_trans : ∀ as bs cs : List Char,
    strLtB as bs = true → strLtB bs cs = true → strLtB as cs = true := by
  intro as
  induction as with
  | nil =>
    intro bs cs hab hbc
    cases bs with
    | nil => exact hbc
    | cons b bs =>
      cases cs with
      | nil => simp [strLtB] at hbc
      | cons c cs => rfl
  | cons a as ih =>
    intro bs cs hab hbc
    cases bs with
    | nil => simp [strLtB] at hab
    | cons b bs =>
      cases cs with
      | nil => simp [strLtB] at hbc
      | cons c cs =>
        have hfab : a.toNat < b.toNat ∨ (a.toNat = b.toNat ∧ strLtB as bs = true) := by
          by_cases h1 : a.toNat < b.toNat
          · exact Or.inl h1
          · by_cases h2 : b.toNat < a.toNat
            · simp [strLtB, h1, h2] at hab
            · simp only [strLtB, h1, h2, if_false] at hab
              exact Or.inr ⟨by omega, hab⟩
        have hfbc : b.toNat < c.toNat ∨ (b.toNat = c.toNat ∧ strLtB bs cs = true) := by
          by_cases h1 : b.toNat < c.toNat
          · exact Or.inl h1
          · by_cases h2 : c.toNat < b.toNat
            · simp [strLtB, h1, h2] at hbc
            · simp only [strLtB, h1, h2, if_false] at hbc
              exact Or.inr ⟨by omega, hbc⟩
        rcases hfab with h1 | ⟨h1, hr1⟩
        · rcases hfbc with h2 | ⟨h2, _⟩
          · simp [strLtB, show a.toNat < c.toNat by omega]
          · simp [strLtB, show a.toNat < c.toNat by omega]
        · rcases hfbc with h2 | ⟨h2, hr2⟩
          · simp [strLtB, show a.toNat < c.toNat by omega]
          · simp only [strLtB, show ¬ a.toNat < c.toNat by omega,
              show ¬ c.toNat < a.toNat by omega, if_false]
            exact ih bs cs hr1 hr2

theorem strLtB_asymm : ∀ as bs : List Char,
    strLtB as bs = true → strLtB bs as = false := by
  intro as
  induction as with
  | nil =>
    intro bs hab
    cases bs with
    | nil => simp [strLtB] at hab
    | cons b bs => rfl
  | cons a as ih =>
    intro bs hab
    cases bs with
    | nil => simp [strLtB] at hab
    | cons b bs =>
      simp only [strLtB] at hab ⊢
      by_cases h1 : a.toNat < b.toNat
      · have h2 : ¬ b.toNat < a.toNat := by omega
        simp [h1, h2]
      · simp [h1] at hab
        rcases hab with ⟨h1', hab⟩
        have : ¬ b.toNat < a.toNat := by omega
        have h2 : ¬ a.toNat < b.toNat := by omega
        simp [this, h2]
        exact ih bs hab

theorem strLtB_eq_of_not : ∀ as bs : List Char,
    strLtB as bs = false → strLtB bs as = false → as = bs := by
  intro as
  induction as with
  | nil =>
    intro bs hab _
    cases bs with
    | nil => rfl
    | cons b bs => simp [strLtB] at hab
  | cons a as ih =>
    intro bs hab hba
    cases bs with
    | nil => simp [strLtB] at hba
    | cons b bs =>
      simp only [strLtB] at hab hba
      by_cases h1 : a.toNat < b.toNat
      · simp [h1] at hab
      · by_cases h2 : b.toNat < a.toNat
        · simp [h1, h2] at hab hba
        · simp [h1, h2] at hab hba
          have hcheq : a = b := char_toNat_inj (by omega)
          rw [hcheq, ih bs hab hba]

theorem string_data_inj {a b : String} (h : a.data = b.data) : a = b := by
  cases a
  cases b
  exact congrArg String.mk h

theorem strLt_irrefl (a : String) : ¬ strLt a a := by
  unfold strLt
  simp [strLtB_irrefl]

theorem strLt_trans {a b c : String} (h₁ : strLt a b) (h₂ : strLt b c) : strLt a c :=
  strLtB_trans a.data b.data c.data h₁ h₂

theorem strLt_asymm {a b : String} (h : strLt a b) : ¬ strLt b a := by
  unfold strLt at *
  simp [strLtB_asymm a.data b.data h]

theorem strLt_trichotomy (a b : String) : strLt a b ∨ a = b ∨ strLt b a := by
  unfold strLt
  cases h1 : strLtB a.data b.data
  · cases h2 : strLtB b.data a.data
    · exact Or.inr (Or.inl (string_data_inj (strLtB_eq_of_not a.data b.data h1 h2)))
    · exact Or.inr (Or.inr rfl)
  · exact Or.inl rfl

theorem strLe_iff_not_lt {a b : String} : strLe a b ↔ ¬ strLt b a := by
  unfold strLe strLt
  cases h : strLtB b.data a.data <;> simp [h]

instance : IsTotal String strLe := by
  constructor
  intro a b
  rw [strLe_iff_not_lt, strLe_iff_not_lt]
  rcases strLt_trichotomy a b with h | h | h
  · exact Or.inl (strLt_asymm h)
  · exact Or.inl (h ▸ strLt_irrefl a)
  · exact Or.inr (strLt_asymm h)

instance : IsTrans String strLe := by
  constructor
  intro a b c hab hbc
  rw [strLe_iff_not_lt] at *
  intro hca
  rcases strLt_trichotomy a b with h | h | h
  · exact hbc (strLt_trans hca h)
  · exact hbc (h ▸ hca)
  · exact hab h

instance : IsAntisymm String strLe := by
  constructor
  intro a b hab hba
  rw [strLe_iff_not_lt] at hab hba
  rcases strLt_trichotomy a b with h | h | h
  · exact absurd h hba
  · exact h
  · exact absurd h hab

theorem netAddr_enc_injective : Function.Injective NetAddr.enc := by
  intro a b h
  cases a
  cases b
  simp_all [NetAddr.enc]

instance : IsTotal NetAddr addrLe := by
  constructor
  intro a b
  unfold addrLe
  rcases strLt_trichotomy a.ip b.ip with h | h | h
  · exact Or.inl (Or.inl h)
  · rcases Nat.le_total a.port b.port with hp | hp
    · exact Or.inl (Or.inr ⟨h, hp⟩)
    · exact Or.inr (Or.inr ⟨h.symm, hp⟩)
  · exact Or.inr (Or.inl h)

instance : IsTrans NetAddr addrLe := by
  constructor
  intro a b c hab hbc
  unfold addrLe at *
  rcases hab with h₁ | ⟨h₁, hp₁⟩
  · rcases hbc with h₂ | ⟨h₂, _⟩
    · exact Or.inl (strLt_trans h₁ h₂)
    · exact Or.inl (h₂ ▸ h₁)
  · rcases hbc with h₂ | ⟨h₂, hp₂⟩
    · exact Or.inl (h₁ ▸ h₂)
    · exact Or.inr ⟨h₁.trans h₂, hp₁.trans hp₂⟩

instance : IsAntisymm NetAddr addrLe := by
  constructor
  intro a b hab hba
  unfold addrLe at hab hba
  have hip : a.ip = b.ip := by
    rcases hab with h₁ | ⟨h₁, _⟩
    · rcases hba with h₂ | ⟨h₂, _⟩
      · exact absurd h₂ (strLt_asymm h₁)
      · exact h₂.symm
    · exact h₁
  have hport : a.port = b.port := by
    rcases hab with h₁ | ⟨_, hp₁⟩
    · exact absurd (hip ▸ h₁) (strLt_irrefl _)
    · rcases hba with h₂ | ⟨_, hp₂⟩
      · exact absurd (hip ▸ h₂) (strLt_irrefl _)
      · exact Nat.le_antisymm hp₁ hp₂
  exact netAddr_enc_injective (Prod.ext_iff.mpr ⟨hip, hport⟩)

theorem clusterName_enc_injective : Function.Injective ClusterName.enc := by
  intro a b h
  cases a <;> cases b <;> simp_all [ClusterName.enc]

theorem lex3Le_total (x y : Nat × String × Nat) : lex3Le x y ∨ lex3Le y x := by
  unfold lex3Le
  rcases lt_trichotomy x.1 y.1 with h | h | h
  · exact Or.inl (Or.inl h)
  · rcases strLt_trichotomy x.2.1 y.2.1 with h' | h' | h'
    · exact Or.inl (Or.inr ⟨h, Or.inl h'⟩)
    · rcases Nat.le_total x.2.2 y.2.2 with hp | hp
      · exact Or.inl (Or.inr ⟨h, Or.inr ⟨h', hp⟩⟩)
      · exact Or.inr (Or.inr ⟨h.symm, Or.inr ⟨h'.symm, hp⟩⟩)
    · exact Or.inr (Or.inr ⟨h.symm, Or.inl h'⟩)
  · exact Or.inr (Or.inl h)

theorem lex3Le_trans (x y z : Nat × String × Nat) :
    lex3Le x y → lex3Le y z → lex3Le x z := by
  intro hab hbc
  unfold lex3Le at hab hbc ⊢
  rcases hab with h₁ | ⟨h₁, hs₁⟩
  · rcases hbc with h₂ | ⟨h₂, _⟩
    · exact Or.inl (h₁.trans h₂)
    · exact Or.inl (h₂ ▸ h₁)
  · rcases hbc with h₂ | ⟨h₂, hs₂⟩
    · exact Or.inl (h₁ ▸ h₂)
    · refine Or.inr ⟨h₁.trans h₂, ?_⟩
      rcases hs₁ with h₃ | ⟨h₃, hp₁⟩
      · rcases hs₂ with h₄ | ⟨h₄, _⟩
        · exact Or.inl (strLt_trans h₃ h₄)
        · exact Or.inl (h₄ ▸ h₃)
      · rcases hs₂ with h₄ | ⟨h₄, hp₂⟩
        · exact Or.inl (h₃ ▸ h₄)
        · exact Or.inr ⟨h₃.trans h₄, hp₁.trans hp₂⟩

theorem lex3Le_antisymm (x y : Nat × String × Nat) :
    lex3Le x y → lex3Le y x → x = y := by
  intro hab hba
  unfold lex3Le at hab hba
  have h1 : x.1 = y.1 := by
    rcases hab with h₁ | ⟨h₁, _⟩
    · rcases hba with h₂ | ⟨h₂, _⟩
      · exact absurd (h₁.trans h₂) (lt_irrefl _)
      · exact h₂.symm
    · exact h₁
  have h2 : x.2.1 = y.2.1 := by
    rcases hab with h₁ | ⟨_, hs₁⟩
    · exact absurd (h1 ▸ h₁) (lt_irrefl _)
    · rcases hba with h₂ | ⟨_, hs₂⟩
      · exact absurd (h1 ▸ h₂) (lt_irrefl _)
      · rcases hs₁ with h₃ | ⟨h₃, _⟩
        · rcases hs₂ with h₄ | ⟨h₄, _⟩
          · exact absurd h₄ (strLt_asymm h₃)
          · exact h₄.symm
        · exact h₃
  have h3 : x.2.2 = y.2.2 := by
    rcases hab with h₁ | ⟨_, hs₁⟩
    · exact absurd (h1 ▸ h₁) (lt_irrefl _)
    · rcases hba with h₂ | ⟨_, hs₂⟩
      · exact absurd (h1 ▸ h₂) (lt_irrefl _)
      · rcases hs₁ with h₃ | ⟨_, hp₁⟩
        · exact absurd (h2 ▸ h₃) (strLt_irrefl _)
        · rcases hs₂ with h₄ | ⟨_, hp₂⟩
          · exact absurd (h2 ▸ h₄) (strLt_irrefl _)
          · exact Nat.le_antisymm hp₁ hp₂
  exact Prod.ext_iff.mpr ⟨h1, Prod.ext_iff.mpr ⟨h2, h3⟩⟩

instance : IsTotal ClusterName cnLe :=
  ⟨fun a b => lex3Le_total a.enc b.enc⟩

instance : IsTrans ClusterName cnLe :=
  ⟨fun a b c => lex3Le_trans a.enc b.enc c.enc⟩

instance : IsAntisymm ClusterName cnLe :=
  ⟨fun a b hab hba => clusterName_enc_injective (lex3Le_antisymm a.enc b.enc hab hba)⟩

/-! ### C3: epoch allocation -/

theorem allocSeq_mem_gt :
    ∀ (n : Nat) (t : EpochTable), ∀ x ∈ allocSeq t n, t.lastIssued < x := by
  intro n
  induction n with
  | zero =>
    intro t x hx
    simp [allocSeq] at hx
  | succ n ih =>
    intro t x hx
    simp only [allocSeq, List.mem_cons] at hx
    rcases hx with rfl | hx
    · exact Int.lt_add_one_of_le le_rfl
    · have h := ih (t.Allocate).2 x hx
      have : t.lastIssued < (t.Allocate).2.lastIssued := Int.lt_add_one_of_le le_rfl
      exact this.trans h

/-- C3: `EpochTable.Allocate` returns `lastIssued + 1` and updates
`lastIssued` to it, and the epoch ids returned along any sequence of
allocations are strictly increasing — no epoch id is ever issued twice. -/
theorem epochtable_allocate_strictly_increasing :
    (∀ t : EpochTable, (t.Allocate).1 = t.lastIssued + 1 ∧
      (t.Allocate).2.lastIssued = t.lastIssued + 1) ∧
    (∀ (t : EpochTable) (n : Nat), (allocSeq t n).Pairwise (fun a b => a < b)) := by
  refine ⟨fun t => ⟨rfl, rfl⟩, fun t n => ?_⟩
  induction n generalizing t with
  | zero => simp [allocSeq]
  | succ n ih =>
    simp only [allocSeq]
    exact List.Pairwise.cons (fun x hx => allocSeq_mem_gt n (t.Allocate).2 x hx) (ih _)

/-! ### C2: materialization -/

theorem find?_filter_ne (fs : FileSystem) (p fname : String) (hp : p ≠ fname) :
    (fs.filter (fun e => e.1 ≠ fname)).find? (fun e => e.1 == p) =
      fs.find? (fun e => e.1 == p) := by
  induction fs with
  | nil => rfl
  | cons e rest ih =>
    by_cases h : e.1 = fname
    · have hne : e.1 ≠ p := fun hh => hp ((hh ▸ h : p = fname))
      have hep : ¬ ((e.1 == p) = true) := by simp [hne]
      have hfil : ¬ ((decide (e.1 ≠ fname)) = true) := by simp [h]
      rw [List.filter_cons, if_neg hfil,
        show List.find? (fun x => x.1 == p) (e :: rest) =
          List.find? (fun x => x.1 == p) rest from List.find?_cons_of_neg rest hep]
      exact ih
    · have hfil : (decide (e.1 ≠ fname)) = true := by simp [h]
      rw [List.filter_cons, if_pos hfil]
      by_cases hc : (e.1 == p) = true
      · rw [show List.find? (fun x => x.1 == p)
            (e :: rest.filter (fun x => decide (x.1 ≠ fname))) = Option.some e from
            List.find?_cons_of_pos _ hc,
          show List.find? (fun x => x.1 == p) (e :: rest) = Option.some e from
            List.find?_cons_of_pos rest hc]
      · rw [show List.find? (fun x => x.1 == p)
            (e :: rest.filter (fun x => decide (x.1 ≠ fname))) =
            List.find? (fun x => x.1 == p) (rest.filter (fun x => decide (x.1 ≠ fname))) from
            List.find?_cons_of_neg _ hc,
          show List.find? (fun x => x.1 == p) (e :: rest) =
            List.find? (fun x => x.1 == p) rest from List.find?_cons_of_neg rest hc]
        exact ih

/-- C2 counterexample: at a concrete configuration, target path
`/tmp/proxy/envoy-rev0.json` (epoch 0) and empty filesystem, the trace of
`WriteFile` is exactly a create of the final path followed by one write of
the payload: no write to a `.tmp.<epoch>` path and no rename occur, so the
claimed write-rename protocol is not what the code does. -/
theorem writefile_counterexample :
    (Config.WriteFile cfg0 (configFileName "/tmp/proxy" 0) []).2 =
      [FsOp.create "/tmp/proxy/envoy-rev0.json",
       FsOp.write "/tmp/proxy/envoy-rev0.json" cfg0.Write] ∧
    ((Config.WriteFile cfg0 (configFileName "/tmp/proxy" 0) []).2.any FsOp.isRename) = false := by
  exact ⟨rfl, rfl⟩

/-- C2 (amended): materializing an artifact writes the payload directly to
the given epoch-stamped path — a create (or truncate) of that path followed
by one write, with no temporary file and no rename — and the contents of
every other path are untouched. -/
theorem writefile_direct_and_isolated (conf : Config) (fname : String) (fs : FileSystem) :
    (Config.WriteFile conf fname fs).2 =
      [FsOp.create fname, FsOp.write fname conf.Write] ∧
    ((Config.WriteFile conf fname fs).2.any FsOp.isRename) = false ∧
    (Config.WriteFile conf fname fs).1.contentsAt fname = Option.some conf.Write ∧
    ∀ p, p ≠ fname → (Config.WriteFile conf fname fs).1.contentsAt p = fs.contentsAt p := by
  refine ⟨rfl, rfl, ?_, ?_⟩
  · simp [Config.WriteFile, FileSystem.setFile, FileSystem.contentsAt, List.find?_cons]
  · intro p hp
    have hf : (fname == p) = false := by
      simp only [beq_eq_false_iff_ne, ne_eq]
      exact fun hh => hp hh.symm
    simp only [Config.WriteFile, FileSystem.setFile, FileSystem.contentsAt,
      List.find?_cons, hf]
    rw [find?_filter_ne fs p fname hp]

/-- C2 witness: applying the amended theorem at a concrete configuration,
fresh path, and a filesystem holding the previous epoch's artifact: the
old path keeps its contents and no rename is performed. -/
theorem writefile_direct_and_isolated_witness :
    (Config.WriteFile cfg0 "/tmp/proxy/envoy-rev1.json"
        [("/tmp/proxy/envoy-rev0.json", "old")]).1.contentsAt
      "/tmp/proxy/envoy-rev0.json" = Option.some "old" ∧
    ((Config.WriteFile cfg0 "/tmp/proxy/envoy-rev1.json"
        [("/tmp/proxy/envoy-rev0.json", "old")]).2.any FsOp.isRename) = false := by
  constructor
  · have h := (writefile_direct_and_isolated cfg0 "/tmp/proxy/envoy-rev1.json"
      [("/tmp/proxy/envoy-rev0.json", "old")]).2.2.2 "/tmp/proxy/envoy-rev0.json" (by decide)
    rw [h]
    rfl
  · exact (writefile_direct_and_isolated cfg0 "/tmp/proxy/envoy-rev1.json"
      [("/tmp/proxy/envoy-rev0.json", "old")]).2.1

/-! ### C6: buildConfig honors the mesh options -/

/-- C6: for every mesh configuration, the generated proxy config honors the
recognized options: the admin block listens on the local address at
`proxyAdminPort`, the SDS and CDS discovery clusters both target
`discoveryAddress` with connect timeout `connectTimeout` and refresh delay
`discoveryRefreshDelay`, and the statsd UDP sink equals `statsdAddress`. -/
theorem buildconfig_honors_options (listeners : Listeners) (clusters : Clusters)
    (lds : Bool) (mesh : MeshConfig) :
    (buildConfig listeners clusters lds mesh).Admin.Address =
      ⟨LocalhostAddress, mesh.ProxyAdminPort⟩ ∧
    (buildConfig listeners clusters lds mesh).Admin.AccessLogPath = DefaultAccessLog ∧
    (∃ sds, (buildConfig listeners clusters lds mesh).ClusterManager.SDS = Option.some sds ∧
      sds.Cluster.Hosts = [⟨"tcp://" ++ mesh.DiscoveryAddress⟩] ∧
      sds.Cluster.ConnectTimeoutMs = protoDurationToMS mesh.ConnectTimeout ∧
      sds.RefreshDelayMs = protoDurationToMS mesh.DiscoveryRefreshDelay) ∧
    (∃ cds, (buildConfig listeners clusters lds mesh).ClusterManager.CDS = Option.some cds ∧
      cds.Cluster.Hosts = [⟨"tcp://" ++ mesh.DiscoveryAddress⟩] ∧
      cds.Cluster.ConnectTimeoutMs = protoDurationToMS mesh.ConnectTimeout ∧
      cds.RefreshDelayMs = protoDurationToMS mesh.DiscoveryRefreshDelay) ∧
    (buildConfig listeners clusters lds mesh).StatsdUDPIPAddress = mesh.StatsdUdpAddress := by
  cases lds <;> by_cases h : mesh.ZipkinAddress = "" <;>
    simp [buildConfig, buildCluster, h]

/-! ### C7: inbound authentication -/

theorem inbound_fold_ssl_none (serviceEnum : List String) (mesh : MeshConfig)
    (sidecar : Node) (instances0 : List ServiceInstance) (config : IstioConfigStore) :
    ∀ (instances : List ServiceInstance) (acc : Listeners × Clusters),
      (∀ l ∈ acc.1, l.SSLContext = Option.none) →
      ∀ l ∈ (instances.foldl (inboundStep serviceEnum mesh sidecar instances0 config) acc).1,
        l.SSLContext = Option.none := by
  intro instances
  induction instances with
  | nil =>
    intro acc h l hl
    exact h l hl
  | cons inst rest ih =>
    intro acc h l hl
    rw [List.foldl_cons] at hl
    refine ih _ ?_ l hl
    intro x hx
    rcases hproto : inst.Endpoint.ServicePort.Protocol with _ | _ | _ | _ | _ | _ <;>
      simp only [inboundStep, hproto] at hx <;>
      [skip; skip; skip; skip; skip; exact h x hx] <;>
      rcases List.mem_append.mp hx with h1 | h1 <;>
      [exact h x h1; skip; exact h x h1; skip; exact h x h1; skip; exact h x h1; skip;
       exact h x h1; skip] <;>
      rw [List.mem_singleton.mp h1] <;>
      [simp [buildHTTPListenerEnum]; simp [buildHTTPListenerEnum]; simp [buildHTTPListenerEnum];
       skip; skip]
    all_goals
      split <;> simp [buildTCPListener]

/-- C7: `applyInboundAuth` leaves a listener unchanged under the None
policy and equips it with the SSL context derived from `authCertsPath`
under MutualTLS; consequently every listener produced by
`buildInboundListeners` carries that SSL context under MutualTLS and no SSL
context under None. -/
theorem inbound_listeners_auth :
    (∀ (l : Listener) (mesh : MeshConfig), mesh.AuthPolicy = AuthPolicy.none →
      applyInboundAuth l mesh = l) ∧
    (∀ (l : Listener) (mesh : MeshConfig), mesh.AuthPolicy = AuthPolicy.mutualTLS →
      applyInboundAuth l mesh =
        { l with SSLContext := Option.some (buildListenerSSLContext mesh.AuthCertsPath) }) ∧
    (∀ (mesh : MeshConfig) (sidecar : Node) (instances : List ServiceInstance)
      (config : IstioConfigStore) (l : Listener),
      l ∈ (buildInboundListeners mesh sidecar instances config).1 →
      (mesh.AuthPolicy = AuthPolicy.mutualTLS →
        l.SSLContext = Option.some (buildListenerSSLContext mesh.AuthCertsPath)) ∧
      (mesh.AuthPolicy = AuthPolicy.none → l.SSLContext = Option.none)) := by
  refine ⟨?_, ?_, ?_⟩
  · intro l mesh h
    simp [applyInboundAuth, h]
  · intro l mesh h
    simp [applyInboundAuth, h]
  · intro mesh sidecar instances config l hl
    simp only [buildInboundListeners, buildInboundListenersEnum, List.mem_map] at hl
    obtain ⟨l0, hl0, rfl⟩ := hl
    have hnone : l0.SSLContext = Option.none :=
      inbound_fold_ssl_none (serviceHostnames instances) mesh sidecar instances config
        instances ([], []) (by simp) l0 hl0
    constructor
    · intro h
      simp [applyInboundAuth, h]
    · intro h
      simp [applyInboundAuth, h, hnone]

/-- C7 witness: at concrete inputs — the None-policy mesh leaves a listener
untouched, the MutualTLS mesh attaches the derived SSL context, and every
listener built inbound for one co-located HTTP instance under MutualTLS
carries the derived SSL context. -/
theorem inbound_listeners_auth_witness :
    applyInboundAuth (virtualListener mesh0) mesh0 = virtualListener mesh0 ∧
    applyInboundAuth (virtualListener mesh0) meshTLS =
      { virtualListener mesh0 with
        SSLContext := Option.some (buildListenerSSLContext meshTLS.AuthCertsPath) } ∧
    ((buildInboundListeners meshTLS node0 [instA] ⟨[], []⟩).1.all
      (fun l => l.SSLContext == Option.some (buildListenerSSLContext meshTLS.AuthCertsPath))) = true ∧
    (buildInboundListeners meshTLS node0 [instA] ⟨[], []⟩).1.length = 1 := by
  refine ⟨inbound_listeners_auth.1 _ _ rfl, inbound_listeners_auth.2.1 _ _ rfl, ?_, by decide⟩
  refine List.all_eq_true.mpr ?_
  intro l hl
  have := (inbound_listeners_auth.2.2 meshTLS node0 [instA] ⟨[], []⟩ l hl).1 rfl
  simp [this]

/-! ### C10: destination HTTP routes -/

theorem builtRoutes_cons_pos (service : Service) (servicePort : Port)
    (rule : RouteRule) (rest : List RouteRule)
    (h : rule.Destination = service.Hostname) :
    builtRoutes service servicePort (rule :: rest) =
      buildHTTPRoute rule servicePort :: builtRoutes service servicePort rest := by
  simp [builtRoutes, List.filter_cons, h]

theorem builtRoutes_cons_neg (service : Service) (servicePort : Port)
    (rule : RouteRule) (rest : List RouteRule)
    (h : ¬ rule.Destination = service.Hostname) :
    builtRoutes service servicePort (rule :: rest) =
      builtRoutes service servicePort rest := by
  simp [builtRoutes, List.filter_cons, h]

theorem destRouteRules_characterization (service : Service) (servicePort : Port) :
    ∀ rules : List RouteRule,
      destRouteRules service servicePort rules =
        (match (builtRoutes service servicePort rules).dropWhile (fun r => !r.CatchAll) with
         | [] => (builtRoutes service servicePort rules, true)
         | c :: _ =>
           ((builtRoutes service servicePort rules).takeWhile (fun r => !r.CatchAll) ++ [c],
            false)) := by
  intro rules
  induction rules with
  | nil => rfl
  | cons rule rest ih =>
    by_cases hdest : rule.Destination = service.Hostname
    · rw [builtRoutes_cons_pos service servicePort rule rest hdest]
      by_cases hca : (buildHTTPRoute rule servicePort).CatchAll = true
      · simp only [destRouteRules, if_pos hdest, hca, if_true, List.dropWhile_cons,
          List.takeWhile_cons, Bool.not_true, Bool.false_eq_true, if_false]
        rfl
      · have hca' : (buildHTTPRoute rule servicePort).CatchAll = false :=
          Bool.eq_false_iff.mpr hca
        simp only [destRouteRules, if_pos hdest, hca', Bool.false_eq_true, if_false,
          List.dropWhile_cons, List.takeWhile_cons, Bool.not_false, if_true]
        rw [ih]
        rcases hd : (builtRoutes service servicePort rest).dropWhile (fun r => !r.CatchAll) with
          _ | ⟨c, cs⟩ <;> simp [hd]
    · rw [builtRoutes_cons_neg service servicePort rule rest hdest]
      simp only [destRouteRules, if_neg hdest]
      exact ih

/-- C10: for every HTTP-family service port, `buildDestinationHTTPRoutes`
returns a non-empty route list that equals the declarative form: the routes
of the destination's rules up to and including the first catch-all route,
with the default route appended as the last element exactly when no rule
produced a catch-all. -/
theorem destination_http_routes (service : Service) (servicePort : Port)
    (rules : List RouteRule)
    (h : servicePort.Protocol = Protocol.http ∨ servicePort.Protocol = Protocol.http2 ∨
      servicePort.Protocol = Protocol.grpc) :
    buildDestinationHTTPRoutes service servicePort rules =
      destRoutesPerClaim service servicePort rules ∧
    buildDestinationHTTPRoutes service servicePort rules ≠ [] := by
  have hmain : buildDestinationHTTPRoutes service servicePort rules =
      destRoutesPerClaim service servicePort rules := by
    rcases h with h | h | h <;>
    · simp only [buildDestinationHTTPRoutes, h]
      rw [destRouteRules_characterization]
      simp only [destRoutesPerClaim]
      rcases hd : (builtRoutes service servicePort rules).dropWhile (fun r => !r.CatchAll) with
        _ | ⟨c, cs⟩
      · have htw : (builtRoutes service servicePort rules).takeWhile (fun r => !r.CatchAll) =
            builtRoutes service servicePort rules := by
          have h2 := @List.takeWhile_append_dropWhile _ (fun r => !r.CatchAll)
            (builtRoutes service servicePort rules)
          rw [hd, List.append_nil] at h2
          exact h2
        simp [hd, htw]
      · simp [hd]
  refine ⟨hmain, ?_⟩
  rw [hmain]
  simp only [destRoutesPerClaim]
  rcases hd : (builtRoutes service servicePort rules).dropWhile (fun r => !r.CatchAll) with
    _ | ⟨c, cs⟩ <;> simp [hd]

/-- C10 witness: at a concrete service, HTTP port, and rule list containing
a catch-all rule followed by a further rule, the built routes equal the
declarative form, rule processing stopped at the catch-all, and no default
route was appended. -/
theorem destination_http_routes_witness :
    buildDestinationHTTPRoutes svcA portHttp80 [ruleX, ruleY, ruleZ, ruleW] =
      destRoutesPerClaim svcA portHttp80 [ruleX, ruleY, ruleZ, ruleW] ∧
    buildDestinationHTTPRoutes svcA portHttp80 [ruleX, ruleY, ruleZ, ruleW] ≠ [] ∧
    (buildDestinationHTTPRoutes svcA portHttp80 [ruleX, ruleY, ruleZ, ruleW]).length = 2 := by
  have h := destination_http_routes svcA portHttp80 [ruleX, ruleY, ruleZ, ruleW] (Or.inl rfl)
  exact ⟨h.1, h.2, by decide⟩

/-! ### C8: management listener collision filtering -/

theorem getByAddress_append_singleton (l : Listeners) (m : Listener) (a : NetAddr) :
    (Listeners.GetByAddress (l ++ [m]) a).isSome =
      ((Listeners.GetByAddress l a).isSome || (m.Address == a)) := by
  induction l with
  | nil =>
    simp only [List.nil_append, Listeners.GetByAddress, List.find?_cons, List.find?_nil]
    by_cases hma : m.Address = a
    · simp [hma]
    · rw [show (m.Address == a) = false from beq_eq_false_iff_ne.mpr hma]
      rfl
  | cons x rest ih =>
    simp only [List.cons_append, Listeners.GetByAddress, List.find?_cons] at *
    cases h : (x.Address == a) <;> by_cases hma : m.Address = a <;> simp [h, hma, ih]

theorem appendMgmt_cons_skip (acc : Listeners) (cs : Clusters) (m : Listener) (c : Cluster)
    (rest : List (Listener × Cluster))
    (h : (Listeners.GetByAddress acc m.Address).isSome = true) :
    appendMgmt acc cs ((m, c) :: rest) = appendMgmt acc cs rest := by
  simp only [appendMgmt]
  rcases hf : Listeners.GetByAddress acc m.Address with _ | x
  · rw [hf] at h
    simp at h
  · rfl

theorem appendMgmt_cons_keep (acc : Listeners) (cs : Clusters) (m : Listener) (c : Cluster)
    (rest : List (Listener × Cluster))
    (h : (Listeners.GetByAddress acc m.Address).isSome = false) :
    appendMgmt acc cs ((m, c) :: rest) = appendMgmt (acc ++ [m]) (cs ++ [c]) rest := by
  simp only [appendMgmt]
  rcases hf : Listeners.GetByAddress acc m.Address with _ | x
  · rfl
  · rw [hf] at h
    simp at h

theorem mgmtKeep_congr (f g : NetAddr → Bool) (h : ∀ a, f a = g a) :
    ∀ ms : List (Listener × Cluster), mgmtKeep f ms = mgmtKeep g ms := by
  intro ms
  induction ms generalizing f g with
  | nil => rfl
  | cons mc rest ih =>
    rcases mc with ⟨m, c⟩
    simp only [mgmtKeep, h m.Address]
    cases hg : g m.Address
    · simp only [Bool.false_eq_true, if_false]
      rw [ih _ _ (fun a => by rw [h a])]
    · simp only [if_true]
      exact ih f g h

theorem appendMgmt_eq_mgmtKeep :
    ∀ (ms : List (Listener × Cluster)) (acc : Listeners) (cs : Clusters),
      appendMgmt acc cs ms =
        (acc ++ (mgmtKeep (fun a => (Listeners.GetByAddress acc a).isSome) ms).map
          (fun mc => mc.1),
         cs ++ (mgmtKeep (fun a => (Listeners.GetByAddress acc a).isSome) ms).map
          (fun mc => mc.2)) := by
  intro ms
  induction ms with
  | nil =>
    intro acc cs
    simp [appendMgmt, mgmtKeep]
  | cons mc rest ih =>
    intro acc cs
    rcases mc with ⟨m, c⟩
    cases hc : (Listeners.GetByAddress acc m.Address).isSome
    · rw [appendMgmt_cons_keep acc cs m c rest hc]
      rw [ih (acc ++ [m]) (cs ++ [c])]
      rw [show mgmtKeep (fun a => (Listeners.GetByAddress acc a).isSome) ((m, c) :: rest) =
          (m, c) :: mgmtKeep
            (fun a => (Listeners.GetByAddress acc a).isSome || (m.Address == a)) rest from by
        simp only [mgmtKeep, hc, Bool.false_eq_true, if_false]]
      rw [mgmtKeep_congr (fun a => (Listeners.GetByAddress (acc ++ [m]) a).isSome)
        (fun a => (Listeners.GetByAddress acc a).isSome || (m.Address == a))
        (fun a => getByAddress_append_singleton acc m a) rest]
      simp [List.append_assoc]
    · rw [appendMgmt_cons_skip acc cs m c rest hc]
      rw [ih acc cs]
      rw [show mgmtKeep (fun a => (Listeners.GetByAddress acc a).isSome) ((m, c) :: rest) =
          mgmtKeep (fun a => (Listeners.GetByAddress acc a).isSome) rest from by
        simp only [mgmtKeep, hc, if_true]]

theorem mgmtKeep_eq_filter :
    ∀ ms : List (Listener × Cluster), (ms.map (fun mc => mc.1.Address)).Nodup →
      ∀ collide : NetAddr → Bool,
        mgmtKeep collide ms = ms.filter (fun mc => !collide mc.1.Address) := by
  intro ms
  induction ms with
  | nil => intro _ collide; rfl
  | cons mc rest ih =>
    intro hnd collide
    rcases mc with ⟨m, c⟩
    simp only [List.map_cons, List.nodup_cons] at hnd
    simp only [mgmtKeep, List.filter_cons]
    cases hcol : collide m.Address
    · simp only [Bool.false_eq_true, if_false, Bool.not_false, if_true]
      rw [ih hnd.2]
      congr 1
      refine List.filter_congr ?_
      intro x hx
      have hne : (m.Address == x.1.Address) = false := by
        refine beq_eq_false_iff_ne.mpr ?_
        intro hh
        exact hnd.1 (hh ▸ List.mem_map_of_mem (fun mc => mc.1.Address) hx)
      simp [hne]
    · simp only [if_true, Bool.not_true, Bool.false_eq_true, if_false]
      exact ih hnd.2 collide

/-- C8 counterexample: with no service listeners at all and a duplicated
management port, the loop omits the second management listener (it collides
with the first management listener, not with any service listener), so the
loop result differs from the claimed service-collision filter. -/
theorem mgmt_collision_counterexample :
    appendMgmt [] [] (mgmtDupPair.1.zip mgmtDupPair.2) ≠
      ([] ++ (mgmtNonColliding [] (mgmtDupPair.1.zip mgmtDupPair.2)).map (fun mc => mc.1),
       [] ++ (mgmtNonColliding [] (mgmtDupPair.1.zip mgmtDupPair.2)).map (fun mc => mc.2)) := by
  decide

/-- C8 (amended): in `buildSidecar`'s management loop, provided the
management listener addresses are pairwise distinct (distinct management
ports), the loop appends exactly the management listeners whose address
does not collide with an already-built service (inbound or outbound)
listener, each together with its corresponding cluster, and omits exactly
the colliding ones.  (With duplicated management ports the collision check
also sees previously appended management listeners, so only the first of
two equal-address management listeners is kept.) -/
theorem mgmt_collision_filter (svc : Listeners) (svcClusters : Clusters)
    (pairs : List (Listener × Cluster))
    (hnd : (pairs.map (fun mc => mc.1.Address)).Nodup) :
    appendMgmt svc svcClusters pairs =
      (svc ++ (mgmtNonColliding svc pairs).map (fun mc => mc.1),
       svcClusters ++ (mgmtNonColliding svc pairs).map (fun mc => mc.2)) := by
  rw [appendMgmt_eq_mgmtKeep pairs svc svcClusters,
    mgmtKeep_eq_filter pairs hnd (fun a => (Listeners.GetByAddress svc a).isSome)]
  have hfil : pairs.filter (fun mc => !(Listeners.GetByAddress svc mc.1.Address).isSome) =
      mgmtNonColliding svc pairs := by
    unfold mgmtNonColliding
    refine List.filter_congr ?_
    intro x hx
    cases hf : Listeners.GetByAddress svc x.1.Address <;> simp [hf]
  rw [hfil]

/-- C8 witness: applying the amended theorem at one service listener and
two distinct-port management pairs — the colliding pair is omitted with its
cluster, the non-colliding pair is appended with its cluster. -/
theorem mgmt_collision_filter_witness :
    appendMgmt mgmtSvcPair.1 mgmtSvcPair.2 (mgmtTwoPair.1.zip mgmtTwoPair.2) =
      (mgmtSvcPair.1 ++ (mgmtNonColliding mgmtSvcPair.1
          (mgmtTwoPair.1.zip mgmtTwoPair.2)).map (fun mc => mc.1),
       mgmtSvcPair.2 ++ (mgmtNonColliding mgmtSvcPair.1
          (mgmtTwoPair.1.zip mgmtTwoPair.2)).map (fun mc => mc.2)) ∧
    (mgmtNonColliding mgmtSvcPair.1 (mgmtTwoPair.1.zip mgmtTwoPair.2)).length = 1 := by
  refine ⟨mgmt_collision_filter mgmtSvcPair.1 mgmtSvcPair.2
    (mgmtTwoPair.1.zip mgmtTwoPair.2) (by decide), by decide⟩

/-! ### C9: port redirection and the virtual listener -/

theorem find?_append_left_none {α : Type} (p : α → Bool) (l₁ l₂ : List α)
    (h : ∀ x ∈ l₁, p x = false) : (l₁ ++ l₂).find? p = l₂.find? p := by
  induction l₁ with
  | nil => rfl
  | cons x rest ih =>
    have hx : ¬ (p x = true) := by simp [h x (List.mem_cons_self x rest)]
    rw [List.cons_append,
      show List.find? p (x :: (rest ++ l₂)) = List.find? p (rest ++ l₂) from
        List.find?_cons_of_neg _ hx]
    exact ih (fun y hy => h y (List.mem_cons_of_mem x hy))

theorem filter_filterMap_unique {α β : Type} (pq : β → Bool) (f : α → Option β)
    (v : β) (va : α) (hva : f va = Option.some v) (hpv : pq v = true) :
    ∀ keys : List α, keys.Nodup → va ∈ keys →
      (∀ a ∈ keys, a ≠ va → ∀ x, f a = Option.some x → pq x = false) →
      (keys.filterMap f).filter pq = [v] := by
  intro keys
  induction keys with
  | nil => intro _ hmem _; cases hmem
  | cons a rest ih =>
    intro hnd hmem hother
    rcases List.mem_cons.mp hmem with rfl | hmem'
    · rw [List.filterMap_cons_some hva]
      have hrest : (rest.filterMap f).filter pq = [] := by
        refine List.filter_eq_nil_iff.mpr ?_
        intro x hx
        obtain ⟨b, hb, hfb⟩ := List.mem_filterMap.mp hx
        have hbne : b ≠ va := fun hh => (List.nodup_cons.mp hnd).1 (hh ▸ hb)
        simp [hother b (List.mem_cons_of_mem va hb) hbne x hfb]
      rw [List.filter_cons]
      simp [hpv, hrest]
    · have hane : a ≠ va := fun hh => (List.nodup_cons.mp hnd).1 (hh ▸ hmem')
      have hrec := ih (List.nodup_cons.mp hnd).2 hmem'
        (fun b hb hbne x hfb => hother b (List.mem_cons_of_mem a hb) hbne x hfb)
      cases hfa : f a with
      | none => rw [List.filterMap_cons_none hfa]; exact hrec
      | some x =>
        have hpx : pq x = false := hother a (List.mem_cons_self a rest) hane x hfa
        rw [List.filterMap_cons_some hfa, List.filter_cons]
        simp only [hpx, Bool.false_eq_true, if_false]
        exact hrec

theorem normalizeListeners_mem (L : Listeners) (l : Listener)
    (h : l ∈ normalizeListeners L) : l ∈ L := by
  unfold normalizeListeners at h
  obtain ⟨a, _, hfa⟩ := List.mem_filterMap.mp h
  exact List.mem_of_find?_eq_some hfa

theorem sidecar_listeners_of_listen_port (env : Environment) (node : Node)
    (h1 : env.Mesh.ProxyListenPort > 0) (h2 : env.Mesh.ProxyHttpPort = 0) :
    (buildSidecar env node).1 =
      normalizeListeners ((sidecarBase env node).1.map (fun l => { l with BindToPort := false })
        ++ [virtualListener env.Mesh]) := by
  simp only [buildSidecar, buildSidecarEnum, sidecarBase, h1, h2, if_pos, gt_iff_lt,
    lt_irrefl, if_false, if_true]

/-- C9 counterexample: with `ProxyListenPort = 15001` and
`ProxyHttpPort = 15002` on an otherwise empty environment, `buildSidecar`
returns two listeners with `BindToPort` true — the virtual listener and the
HTTP proxy listener — so the virtual listener is not the only bound one. -/
theorem sidecar_bind_counterexample :
    (buildSidecar envHttp node0).1.filter (fun l => l.BindToPort) ≠
      [virtualListener envHttp.Mesh] ∧
    ((buildSidecar envHttp node0).1.filter (fun l => l.BindToPort)).length = 2 := by
  constructor
  · decide
  · decide

/-- C9 (amended): when `ProxyListenPort > 0`, `ProxyHttpPort = 0`, and no
service or management listener occupies the virtual listener's wildcard
address, every listener returned by `buildSidecar` except the single
appended virtual listener has `BindToPort` false; the virtual listener
binds the wildcard address on `ProxyListenPort` with `UseOriginalDst` true
and an empty filter list, and is exactly the set of bound listeners. -/
theorem sidecar_bind_to_port (env : Environment) (node : Node)
    (h1 : env.Mesh.ProxyListenPort > 0) (h2 : env.Mesh.ProxyHttpPort = 0)
    (h3 : ∀ l ∈ (sidecarBase env node).1, l.Address ≠ (virtualListener env.Mesh).Address) :
    (buildSidecar env node).1.filter (fun l => l.BindToPort) = [virtualListener env.Mesh] ∧
    (∀ l ∈ (buildSidecar env node).1, l ≠ virtualListener env.Mesh → l.BindToPort = false) ∧
    (virtualListener env.Mesh).Address = ⟨WildcardAddress, env.Mesh.ProxyListenPort⟩ ∧
    (virtualListener env.Mesh).UseOriginalDst = true ∧
    (virtualListener env.Mesh).Filters = [] := by
  have hre := sidecar_listeners_of_listen_port env node h1 h2
  set v := virtualListener env.Mesh with hv
  set pre := (sidecarBase env node).1.map (fun l => { l with BindToPort := false }) with hpre
  have hpre_bind : ∀ x ∈ pre, x.BindToPort = false := by
    intro x hx
    obtain ⟨y, _, rfl⟩ := List.mem_map.mp hx
    rfl
  have hpre_addr : ∀ x ∈ pre, x.Address ≠ v.Address := by
    intro x hx
    obtain ⟨y, hy, rfl⟩ := List.mem_map.mp hx
    exact h3 y hy
  have hmemL : ∀ x ∈ pre ++ [v], x = v ∨ x ∈ pre := by
    intro x hx
    rcases List.mem_append.mp hx with hx | hx
    · exact Or.inr hx
    · exact Or.inl (List.mem_singleton.mp hx)
  have hfa : (pre ++ [v]).find? (fun x => x.Address == v.Address) = Option.some v := by
    rw [find?_append_left_none _ pre [v] (fun x hx =>
      beq_eq_false_iff_ne.mpr (hpre_addr x hx))]
    rw [show List.find? (fun x => x.Address == v.Address) [v] = Option.some v from
      List.find?_cons_of_pos _ (by simp)]
  have hfilter : (buildSidecar env node).1.filter (fun l => l.BindToPort) = [v] := by
    rw [hre]
    unfold normalizeListeners
    refine filter_filterMap_unique (fun l => l.BindToPort)
      (fun a => (pre ++ [v]).find? (fun x => x.Address == a)) v v.Address hfa rfl _
      ?_ ?_ ?_
    · exact ((List.perm_insertionSort addrLe _).nodup_iff).mpr (List.nodup_dedup _)
    · refine ((List.perm_insertionSort addrLe _).mem_iff).mpr ?_
      refine (List.mem_dedup).mpr ?_
      exact List.mem_map_of_mem (fun x => x.Address)
        (List.mem_append_right pre (List.mem_singleton_self v))
    · intro a _ hane x hfx
      have hfx₂ : (pre ++ [v]).find? (fun y => y.Address == a) = Option.some x := hfx
      have hx_mem := List.mem_of_find?_eq_some hfx₂
      have hx_addr : (x.Address == a) = true := by
        simpa using List.find?_some hfx₂
      rcases hmemL x hx_mem with rfl | hx_pre
      · exact absurd (beq_iff_eq.mp hx_addr).symm hane
      · exact hpre_bind x hx_pre
  refine ⟨hfilter, ?_, rfl, rfl, rfl⟩
  intro l hl hlne
  rw [hre] at hl
  have hlmem := normalizeListeners_mem _ _ hl
  rcases hmemL l hlmem with rfl | hlpre
  · exact absurd rfl hlne
  · exact hpre_bind l hlpre

/-- C9 witness: applying the amended theorem to the empty environment with
`ProxyListenPort = 15001`: the bound listeners are exactly the virtual
listener. -/
theorem sidecar_bind_to_port_witness :
    (buildSidecar env0 node0).1.filter (fun l => l.BindToPort) =
      [virtualListener env0.Mesh] ∧
    (buildSidecar env0 node0).1.length = 1 := by
  refine ⟨(sidecar_bind_to_port env0 node0 (by decide) (by decide) (by decide)).1, by decide⟩

/-! ### C4: idempotence on an unchanged environment -/

/-- C4: a reconcile pass whose rendered fingerprint equals the current one
returns without allocating an epoch; hence applying the same environment
twice in succession, from any state whose fingerprint differs from it,
performs exactly one epoch allocation, and the second pass is a no-op. -/
theorem reconcile_idempotent (env : Environment) (node : Node) (s : AgentState)
    (h : s.currentFingerprint ≠ Option.some (fingerprint (render env node))) :
    (∀ s₂ : AgentState,
      s₂.currentFingerprint = Option.some (fingerprint (render env node)) →
      reconcile env node s₂ = (s₂, [AgentEvent.rendered (fingerprint (render env node))])) ∧
    (reconcile env node (reconcile env node s).1).1 = (reconcile env node s).1 ∧
    (reconcile env node (reconcile env node s).1).2 =
      [AgentEvent.rendered (fingerprint (render env node))] ∧
    (((reconcile env node s).2 ++ (reconcile env node (reconcile env node s).1).2).countP
      AgentEvent.isAllocation) = 1 := by
  have hnoop : ∀ s₂ : AgentState,
      s₂.currentFingerprint = Option.some (fingerprint (render env node)) →
      reconcile env node s₂ = (s₂, [AgentEvent.rendered (fingerprint (render env node))]) := by
    intro s₂ h₂
    simp [reconcile, h₂]
  have hfirst : (reconcile env node s).1.currentFingerprint =
      Option.some (fingerprint (render env node)) := by
    simp [reconcile, h]
  have hsecond := hnoop (reconcile env node s).1 hfirst
  refine ⟨hnoop, ?_, ?_, ?_⟩
  · rw [hsecond]
  · rw [hsecond]
  · rw [hsecond]
    have hev : (reconcile env node s).2 =
        [AgentEvent.rendered (fingerprint (render env node)),
         AgentEvent.allocated (s.table.lastIssued + 1),
         AgentEvent.running (s.table.lastIssued + 1)] ++
          ((s.records.filter (fun r => r.status = EpochStatus.Running)).map
            (fun r => AgentEvent.draining r.epoch)) := by
      simp [reconcile, h, EpochTable.Allocate]
    rw [hev]
    simp [List.countP_append, List.countP_cons, List.countP_map, AgentEvent.isAllocation,
      Function.comp, List.countP_eq_zero]

/-- C4 witness: applying the theorem at the fresh agent state and a
concrete environment: the second pass leaves the state unchanged and the
two passes together allocate exactly one epoch. -/
theorem reconcile_idempotent_witness :
    (reconcile env0 node0 (reconcile env0 node0 AgentState.init).1).1 =
      (reconcile env0 node0 AgentState.init).1 ∧
    (((reconcile env0 node0 AgentState.init).2 ++
      (reconcile env0 node0 (reconcile env0 node0 AgentState.init).1).2).countP
      AgentEvent.isAllocation) = 1 := by
  have h := reconcile_idempotent env0 node0 AgentState.init (by simp [AgentState.init])
  exact ⟨h.2.1, h.2.2.2⟩

/-! ### C5: hitless swap ordering -/

set_option maxRecDepth 100000 in
/-- C5 counterexample: in the three-pass execution over `env0`, `env1`,
`env2` (three distinct fingerprints), `Draining 0` is emitted during the
second pass (index 6), before `Running 2` is emitted during the third pass
(index 9) — `Running` of epoch 2 does not observably precede `Draining` of
the earlier epoch 0, refuting the pairwise form of the claim. -/
theorem hitless_pairwise_counterexample :
    ¬ pairwiseHitless (runAgent node0 AgentState.init [env0, env1, env2]).2 := by
  intro h
  have h96 := h 6 9 0 2 (by decide) (by decide) (by decide)
  exact absurd h96 (by decide)

theorem reconcile_inv (env : Environment) (node : Node) (s : AgentState)
    (hinv : ∀ r ∈ s.records, r.epoch ≤ s.table.lastIssued) :
    ∀ r ∈ (reconcile env node s).1.records,
      r.epoch ≤ (reconcile env node s).1.table.lastIssued := by
  by_cases h : s.currentFingerprint = Option.some (fingerprint (render env node))
  · simp only [reconcile, if_pos h]
    exact hinv
  · simp only [reconcile, if_neg h, EpochTable.Allocate]
    intro r hr
    rcases List.mem_append.mp hr with hr | hr
    · obtain ⟨r₀, hr₀, rfl⟩ := List.mem_map.mp hr
      have h0 := hinv r₀ hr₀
      by_cases hst : r₀.status = EpochStatus.Running <;> simp [hst] <;> omega
    · rw [List.mem_singleton.mp hr]

theorem reconcile_drainPreceded (env : Environment) (node : Node) (s : AgentState)
    (hinv : ∀ r ∈ s.records, r.epoch ≤ s.table.lastIssued) :
    drainPreceded (reconcile env node s).2 := by
  by_cases h : s.currentFingerprint = Option.some (fingerprint (render env node))
  · simp only [reconcile, if_pos h]
    intro pre post e heq
    rcases pre with _ | ⟨a, pre⟩
    · simp at heq
    · rcases pre with _ | ⟨b, pre⟩ <;> simp at heq
  · simp only [reconcile, if_neg h, EpochTable.Allocate]
    intro pre post e heq
    rcases pre with _ | ⟨a, pre⟩
    · simp at heq
    rcases pre with _ | ⟨b, pre⟩
    · simp at heq
    rcases pre with _ | ⟨c, pre⟩
    · simp at heq
    simp only [List.cons_append, List.cons.injEq] at heq
    obtain ⟨ha, hb, hc, heq₂⟩ := heq
    have heq₃ : (s.records.filter (fun r => r.status = EpochStatus.Running)).map
        (fun r => AgentEvent.draining r.epoch) = pre ++ AgentEvent.draining e :: post := by
      simpa using heq₂
    have hmem : AgentEvent.draining e ∈
        (s.records.filter (fun r => r.status = EpochStatus.Running)).map
          (fun r => AgentEvent.draining r.epoch) := by
      rw [heq₃]
      exact List.mem_append_right pre (List.mem_cons_self _ _)
    obtain ⟨r, hr, hre⟩ := List.mem_map.mp hmem
    have hrec : r.epoch = e := by
      simpa using hre
    have hle : r.epoch ≤ s.table.lastIssued := hinv r (List.mem_of_mem_filter hr)
    refine ⟨s.table.lastIssued + 1, by omega, ?_⟩
    refine List.mem_cons_of_mem a (List.mem_cons_of_mem b ?_)
    rw [← hc]
    exact List.mem_cons_self _ _

theorem drainPreceded_append (t₁ t₂ : List AgentEvent)
    (h₁ : drainPreceded t₁) (h₂ : drainPreceded t₂) :
    drainPreceded (t₁ ++ t₂) := by
  intro pre post e heq
  rcases List.append_eq_append_iff.mp heq.symm with ⟨a, ha₁, ha₂⟩ | ⟨c, hc₁, hc₂⟩
  · rcases a with _ | ⟨y, a⟩
    · obtain ⟨e₂, he₂, hmem⟩ := h₂ [] post e (by simpa using ha₂.symm)
      cases hmem
    · simp only [List.cons_append, List.cons.injEq] at ha₂
      obtain ⟨hy, hrest⟩ := ha₂
      obtain ⟨e₂, he₂, hmem⟩ := h₁ pre a e (by rw [ha₁, ← hy])
      exact ⟨e₂, he₂, hmem⟩
  · obtain ⟨e₂, he₂, hmem⟩ := h₂ c post e hc₂
    exact ⟨e₂, he₂, hc₁ ▸ List.mem_append_right t₁ hmem⟩

theorem runAgent_drainPreceded_aux (node : Node) :
    ∀ (envs : List Environment) (s : AgentState),
      (∀ r ∈ s.records, r.epoch ≤ s.table.lastIssued) →
      drainPreceded (runAgent node s envs).2 := by
  intro envs
  induction envs with
  | nil =>
    intro s _ pre post e heq
    simp only [runAgent] at heq
    simp at heq
  | cons env rest ih =>
    intro s hinv
    simp only [runAgent]
    exact drainPreceded_append _ _ (reconcile_drainPreceded env node s hinv)
      (ih _ (reconcile_inv env node s hinv))

/-- C5 (amended): in every execution from the fresh agent state, whenever
an epoch is transitioned to Draining, a strictly later epoch (the one
allocated in the same reconcile pass) has already observably entered
Running earlier in the trace — an old epoch is never asked to drain before
a newer epoch is serving. -/
theorem drain_always_overlapped (node : Node) (envs : List Environment) :
    drainPreceded (runAgent node AgentState.init envs).2 :=
  runAgent_drainPreceded_aux node envs AgentState.init
    (by intro r hr; simp [AgentState.init] at hr)

/-! ### C1: determinism of config generation -/

theorem sortStrings_perm (l₁ l₂ : List String) (h : l₁.Perm l₂) :
    sortStrings l₁ = sortStrings l₂ := by
  have hp : (sortStrings l₁).Perm (sortStrings l₂) :=
    (List.perm_insertionSort _ l₁).trans (h.trans (List.perm_insertionSort _ l₂).symm)
  have hs₁ : (sortStrings l₁).Sorted strLe := List.sorted_insertionSort _ l₁
  have hs₂ : (sortStrings l₂).Sorted strLe := List.sorted_insertionSort _ l₂
  exact List.eq_of_perm_of_sorted hp hs₁ hs₂

theorem buildHTTPListenerEnum_perm (e₁ e₂ : List String) (h : e₁.Perm e₂) :
    buildHTTPListenerEnum e₁ = buildHTTPListenerEnum e₂ := by
  funext mesh role instances rc ip port rds ura
  simp only [buildHTTPListenerEnum, sortStrings_perm e₁ e₂ h]

theorem inboundStep_perm (e₁ e₂ : List String) (h : e₁.Perm e₂) (mesh : MeshConfig)
    (sidecar : Node) (instances : List ServiceInstance) (config : IstioConfigStore) :
    inboundStep e₁ mesh sidecar instances config = inboundStep e₂ mesh sidecar instances config := by
  funext acc inst
  simp only [inboundStep, buildHTTPListenerEnum_perm e₁ e₂ h]

theorem buildInboundListenersEnum_perm (e₁ e₂ : List String) (h : e₁.Perm e₂)
    (mesh : MeshConfig) (sidecar : Node) (instances : List ServiceInstance)
    (config : IstioConfigStore) :
    buildInboundListenersEnum e₁ mesh sidecar instances config =
      buildInboundListenersEnum e₂ mesh sidecar instances config := by
  simp only [buildInboundListenersEnum, inboundStep_perm e₁ e₂ h]

theorem foldl_append_pair {α β γ : Type} (f : α → β) (g : α → List γ) :
    ∀ (l : List α) (acc : List β × List γ),
      l.foldl (fun acc x => (acc.1 ++ [f x], acc.2 ++ g x)) acc =
        (acc.1 ++ l.map f, acc.2 ++ (l.map g).flatten) := by
  intro l
  induction l with
  | nil => intro acc; simp
  | cons x rest ih =>
    intro acc
    rw [List.foldl_cons, ih]
    simp [List.append_assoc]

/-- The outbound listener/cluster pair as an explicit append of the TCP
part and the per-port-entry parts. -/
theorem buildOutboundListenersEnum_eq (serviceEnum : List String)
    (portEnum : List (Nat × HTTPRouteConfig)) (mesh : MeshConfig) (sidecar : Node)
    (instances : List ServiceInstance) (services : List Service) :
    buildOutboundListenersEnum serviceEnum portEnum mesh sidecar instances services =
      ((buildOutboundTCPListeners mesh services).1 ++
        portEnum.map (fun pc => buildHTTPListenerEnum serviceEnum mesh sidecar instances
          (Option.some pc.2) WildcardAddress pc.1 (toString pc.1) false),
       (buildOutboundTCPListeners mesh services).2 ++
        (portEnum.map (fun pc => HTTPRouteConfig.clustersOf pc.2)).flatten) := by
  simp only [buildOutboundListenersEnum]
  exact foldl_append_pair _ _ portEnum _

theorem find?_isSome_eq_any {α : Type} (q : α → Bool) (l : List α) :
    (l.find? q).isSome = l.any q := by
  induction l with
  | nil => rfl
  | cons x rest ih =>
    cases hx : q x
    · rw [show List.find? q (x :: rest) = List.find? q rest from
        List.find?_cons_of_neg rest (by simp [hx])]
      simp [hx, ih]
    · rw [show List.find? q (x :: rest) = Option.some x from
        List.find?_cons_of_pos rest hx]
      simp [hx]

theorem any_perm {α : Type} (q : α → Bool) (l₁ l₂ : List α) (h : l₁.Perm l₂) :
    l₁.any q = l₂.any q := by
  rw [Bool.eq_iff_iff]
  simp only [List.any_eq_true]
  constructor
  · rintro ⟨x, hx, hq⟩
    exact ⟨x, h.mem_iff.mp hx, hq⟩
  · rintro ⟨x, hx, hq⟩
    exact ⟨x, h.mem_iff.mpr hx, hq⟩

theorem getByAddress_isSome_perm (l₁ l₂ : Listeners) (h : l₁.Perm l₂) (a : NetAddr) :
    (Listeners.GetByAddress l₁ a).isSome = (Listeners.GetByAddress l₂ a).isSome := by
  unfold Listeners.GetByAddress
  rw [find?_isSome_eq_any, find?_isSome_eq_any]
  exact any_perm _ l₁ l₂ h

theorem find?_append_left_some {α : Type} (q : α → Bool) (l₁ l₂ : List α) (v : α)
    (h : l₁.find? q = Option.some v) : (l₁ ++ l₂).find? q = Option.some v := by
  rw [List.find?_append, h]
  rfl

/-- `find?` is invariant under permuting a concatenation of blocks, when no
two distinct blocks both contain a match. -/
theorem find?_flatten_perm {α : Type} (q : α → Bool) :
    ∀ (bs₁ bs₂ : List (List α)), bs₁.Perm bs₂ →
      bs₁.Pairwise (fun b c => ¬ ((∃ x ∈ b, q x = true) ∧ (∃ y ∈ c, q y = true))) →
      bs₁.flatten.find? q = bs₂.flatten.find? q := by
  intro bs₁ bs₂ hperm
  induction hperm with
  | nil => intro _; rfl
  | cons x h ih =>
    intro hdisj
    simp only [List.flatten_cons]
    cases hfx : x.find? q with
    | some v =>
      rw [find?_append_left_some q x _ v hfx, find?_append_left_some q x _ v hfx]
    | none =>
      have hxnone : ∀ y ∈ x, q y = false := by
        intro y hy
        simpa using List.find?_eq_none.mp hfx y hy
      rw [find?_append_left_none q x _ hxnone, find?_append_left_none q x _ hxnone]
      exact ih (List.Pairwise.sublist (List.sublist_cons_self x _) hdisj)
  | swap x y l =>
    intro hdisj
    simp only [List.flatten_cons]
    have hdis : ¬ ((∃ a ∈ y, q a = true) ∧ (∃ b ∈ x, q b = true)) :=
      (List.pairwise_cons.mp hdisj).1 x (List.mem_cons_self x l)
    cases hfy : y.find? q with
    | some v =>
      have hqv : q v = true := List.find?_some hfy
      have hvmem : v ∈ y := List.mem_of_find?_eq_some hfy
      have hxnone : ∀ b ∈ x, q b = false := by
        intro b hb
        cases hqb : q b
        · rfl
        · exact absurd ⟨⟨v, hvmem, hqv⟩, ⟨b, hb, hqb⟩⟩ hdis
      rw [find?_append_left_some q y _ v hfy, find?_append_left_none q x _ hxnone,
        find?_append_left_some q y _ v hfy]
    | none =>
      have hynone : ∀ a ∈ y, q a = false := by
        intro a ha
        simpa using List.find?_eq_none.mp hfy a ha
      rw [find?_append_left_none q y _ hynone]
      cases hfx : x.find? q with
      | some w =>
        rw [find?_append_left_some q x _ w hfx, find?_append_left_some q x _ w hfx]
      | none =>
        have hxnone : ∀ b ∈ x, q b = false := by
          intro b hb
          simpa using List.find?_eq_none.mp hfx b hb
        rw [find?_append_left_none q x _ hxnone, find?_append_left_none q x _ hxnone,
          find?_append_left_none q y _ hynone]
  | trans h₁ h₂ ih₁ ih₂ =>
    intro hdisj
    have hdisj₂ :=
      (List.Perm.pairwise_iff (fun hbc hcb => hbc ⟨hcb.2, hcb.1⟩) h₁).mp hdisj
    exact (ih₁ hdisj).trans (ih₂ hdisj₂)

theorem flatten_map_singleton {α : Type} (l : List α) :
    (l.map (fun x => [x])).flatten = l := by
  induction l with
  | nil => rfl
  | cons x rest ih => simp [ih]

/-- `find?` is invariant under permutation when at most one element
matches. -/
theorem find?_perm_unique {α : Type} (q : α → Bool) (M₁ M₂ : List α) (h : M₁.Perm M₂)
    (hd : M₁.Pairwise (fun x y => ¬ (q x = true ∧ q y = true))) :
    M₁.find? q = M₂.find? q := by
  have hblocks := find?_flatten_perm q (M₁.map (fun x => [x])) (M₂.map (fun x => [x]))
    (h.map _) ?_
  · rw [flatten_map_singleton, flatten_map_singleton] at hblocks
    exact hblocks
  · refine (List.pairwise_map).mpr (hd.imp ?_)
    intro x y hxy hand
    obtain ⟨⟨u, hu, hqu⟩, ⟨v, hv, hqv⟩⟩ := hand
    rw [List.mem_singleton] at hu hv
    exact hxy ⟨hu ▸ hqu, hv ▸ hqv⟩

/-- Two listener collections that are permutations of one another and make
the same first-match choice at every address normalize identically. -/
theorem normalizeListeners_ext (L₁ L₂ : Listeners) (hp : L₁.Perm L₂)
    (hf : ∀ a : NetAddr,
      L₁.find? (fun x => x.Address == a) = L₂.find? (fun x => x.Address == a)) :
    normalizeListeners L₁ = normalizeListeners L₂ := by
  unfold normalizeListeners
  have hkeys : ((L₁.map (fun x => x.Address)).dedup.insertionSort addrLe) =
      ((L₂.map (fun x => x.Address)).dedup.insertionSort addrLe) := by
    have hperm : ((L₁.map (fun x => x.Address)).dedup).Perm
        ((L₂.map (fun x => x.Address)).dedup) := (hp.map _).dedup
    exact List.eq_of_perm_of_sorted
      ((List.perm_insertionSort _ _).trans (hperm.trans (List.perm_insertionSort _ _).symm))
      (List.sorted_insertionSort _ _) (List.sorted_insertionSort _ _)
  rw [hkeys]
  exact congrArg (fun f => List.filterMap f _) (funext hf)

/-- Two cluster collections that are permutations of one another and make
the same first-match choice at every name normalize identically. -/
theorem normalizeClusters_ext (C₁ C₂ : Clusters) (hp : C₁.Perm C₂)
    (hf : ∀ n : ClusterName,
      C₁.find? (fun x => x.Name == n) = C₂.find? (fun x => x.Name == n)) :
    normalizeClusters C₁ = normalizeClusters C₂ := by
  unfold normalizeClusters
  have hkeys : ((C₁.map (fun x => x.Name)).dedup.insertionSort cnLe) =
      ((C₂.map (fun x => x.Name)).dedup.insertionSort cnLe) := by
    have hperm : ((C₁.map (fun x => x.Name)).dedup).Perm
        ((C₂.map (fun x => x.Name)).dedup) := (hp.map _).dedup
    exact List.eq_of_perm_of_sorted
      ((List.perm_insertionSort _ _).trans (hperm.trans (List.perm_insertionSort _ _).symm))
      (List.sorted_insertionSort _ _) (List.sorted_insertionSort _ _)
  rw [hkeys]
  exact congrArg (fun f => List.filterMap f _) (funext hf)

/-- The management-port collision loop appends the same kept suffix when
run against permuted accumulated listeners, since the collision check only
asks whether an address is occupied. -/
theorem appendMgmt_perm_decomp :
    ∀ (mg : List (Listener × Cluster)) (L₁ L₂ : Listeners) (C₁ C₂ : Clusters),
      L₁.Perm L₂ →
      ∃ K KC, appendMgmt L₁ C₁ mg = (L₁ ++ K, C₁ ++ KC) ∧
        appendMgmt L₂ C₂ mg = (L₂ ++ K, C₂ ++ KC) := by
  intro mg
  induction mg with
  | nil =>
    intro L₁ L₂ C₁ C₂ h
    exact ⟨[], [], by simp [appendMgmt], by simp [appendMgmt]⟩
  | cons mc rest ih =>
    intro L₁ L₂ C₁ C₂ h
    obtain ⟨m, c⟩ := mc
    have hsome := getByAddress_isSome_perm L₁ L₂ h m.Address
    cases h₁ : Listeners.GetByAddress L₁ m.Address with
    | some v =>
      have h₂ : ∃ w, Listeners.GetByAddress L₂ m.Address = Option.some w := by
        refine Option.isSome_iff_exists.mp ?_
        rw [← hsome, h₁]
        rfl
      obtain ⟨w, hw⟩ := h₂
      obtain ⟨K, KC, hK₁, hK₂⟩ := ih L₁ L₂ C₁ C₂ h
      refine ⟨K, KC, ?_, ?_⟩
      · rw [show appendMgmt L₁ C₁ ((m, c) :: rest) = appendMgmt L₁ C₁ rest from by
          simp [appendMgmt, h₁]]
        exact hK₁
      · rw [show appendMgmt L₂ C₂ ((m, c) :: rest) = appendMgmt L₂ C₂ rest from by
          simp [appendMgmt, hw]]
        exact hK₂
    | none =>
      have h₂ : Listeners.GetByAddress L₂ m.Address = Option.none := by
        rw [h₁] at hsome
        cases hg : Listeners.GetByAddress L₂ m.Address with
        | none => rfl
        | some w => rw [hg] at hsome; exact absurd hsome.symm (by simp)
      obtain ⟨K, KC, hK₁, hK₂⟩ := ih (L₁ ++ [m]) (L₂ ++ [m]) (C₁ ++ [c]) (C₂ ++ [c])
        (h.append_right [m])
      refine ⟨m :: K, c :: KC, ?_, ?_⟩
      · rw [show appendMgmt L₁ C₁ ((m, c) :: rest) =
            appendMgmt (L₁ ++ [m]) (C₁ ++ [c]) rest from by simp [appendMgmt, h₁]]
        rw [hK₁]
        simp
      · rw [show appendMgmt L₂ C₂ ((m, c) :: rest) =
            appendMgmt (L₂ ++ [m]) (C₂ ++ [c]) rest from by simp [appendMgmt, h₂]]
        rw [hK₂]
        simp

theorem foldl_preserve {α β : Type} (P : β → Prop) (f : β → α → β)
    (hf : ∀ b a, P b → P (f b a)) :
    ∀ (l : List α) (b : β), P b → P (l.foldl f b) := by
  intro l
  induction l with
  | nil => intro b hb; exact hb
  | cons x rest ih => intro b hb; exact ih _ (hf b x hb)

theorem updatePort_mem_keys (port : Nat) (f : HTTPRouteConfig → HTTPRouteConfig) :
    ∀ (cs : HTTPRouteConfigs) (pc : Nat × HTTPRouteConfig),
      pc ∈ HTTPRouteConfigs.updatePort port f cs →
      pc.1 = port ∨ ∃ pc₀ ∈ cs, pc.1 = pc₀.1 := by
  intro cs
  induction cs with
  | nil =>
    intro pc hpc
    simp [HTTPRouteConfigs.updatePort] at hpc
    exact Or.inl (by rw [hpc])
  | cons hd rest ih =>
    intro pc hpc
    obtain ⟨pk, rc0⟩ := hd
    by_cases h₁ : port < pk
    · rw [show HTTPRouteConfigs.updatePort port f ((pk, rc0) :: rest) =
          (port, f ⟨[]⟩) :: (pk, rc0) :: rest from by
        simp [HTTPRouteConfigs.updatePort, h₁]] at hpc
      rcases List.mem_cons.mp hpc with hpc | hpc
      · exact Or.inl (by rw [hpc])
      · rcases List.mem_cons.mp hpc with hpc | hpc
        · exact Or.inr ⟨(pk, rc0), List.mem_cons_self _ _, by rw [hpc]⟩
        · exact Or.inr ⟨pc, List.mem_cons_of_mem _ hpc, rfl⟩
    · by_cases h₂ : port = pk
      · rw [show HTTPRouteConfigs.updatePort port f ((pk, rc0) :: rest) =
            (pk, f rc0) :: rest from by
          simp [HTTPRouteConfigs.updatePort, h₁, h₂]] at hpc
        rcases List.mem_cons.mp hpc with hpc | hpc
        · exact Or.inl (by rw [hpc, h₂])
        · exact Or.inr ⟨pc, List.mem_cons_of_mem _ hpc, rfl⟩
      · rw [show HTTPRouteConfigs.updatePort port f ((pk, rc0) :: rest) =
            (pk, rc0) :: HTTPRouteConfigs.updatePort port f rest from by
          simp [HTTPRouteConfigs.updatePort, h₁, h₂]] at hpc
        rcases List.mem_cons.mp hpc with hpc | hpc
        · exact Or.inr ⟨(pk, rc0), List.mem_cons_self _ _, by rw [hpc]⟩
        · rcases ih pc hpc with hk | ⟨pc₀, hpc₀, hk⟩
          · exact Or.inl hk
          · exact Or.inr ⟨pc₀, List.mem_cons_of_mem _ hpc₀, hk⟩

theorem updatePort_keys_lt (port : Nat) (f : HTTPRouteConfig → HTTPRouteConfig) :
    ∀ cs : HTTPRouteConfigs, cs.Pairwise (fun a b => a.1 < b.1) →
      (HTTPRouteConfigs.updatePort port f cs).Pairwise (fun a b => a.1 < b.1) := by
  intro cs
  induction cs with
  | nil =>
    intro _
    simp [HTTPRouteConfigs.updatePort]
  | cons hd rest ih =>
    intro hpw
    obtain ⟨pk, rc0⟩ := hd
    obtain ⟨hhd, htl⟩ := List.pairwise_cons.mp hpw
    by_cases h₁ : port < pk
    · rw [show HTTPRouteConfigs.updatePort port f ((pk, rc0) :: rest) =
          (port, f ⟨[]⟩) :: (pk, rc0) :: rest from by
        simp [HTTPRouteConfigs.updatePort, h₁]]
      refine List.pairwise_cons.mpr ⟨?_, hpw⟩
      intro pc hpc
      rcases List.mem_cons.mp hpc with hpc | hpc
      · rw [hpc]; exact h₁
      · exact Nat.lt_trans h₁ (hhd pc hpc)
    · by_cases h₂ : port = pk
      · rw [show HTTPRouteConfigs.updatePort port f ((pk, rc0) :: rest) =
            (pk, f rc0) :: rest from by
          simp [HTTPRouteConfigs.updatePort, h₁, h₂]]
        exact List.pairwise_cons.mpr ⟨fun pc hpc => hhd pc hpc, htl⟩
      · rw [show HTTPRouteConfigs.updatePort port f ((pk, rc0) :: rest) =
            (pk, rc0) :: HTTPRouteConfigs.updatePort port f rest from by
          simp [HTTPRouteConfigs.updatePort, h₁, h₂]]
        refine List.pairwise_cons.mpr ⟨?_, ih htl⟩
        intro pc hpc
        rcases updatePort_mem_keys port f rest pc hpc with hk | ⟨pc₀, hpc₀, hk⟩
        · rw [hk]; omega
        · rw [hk]; exact hhd pc₀ hpc₀

theorem normalize_pairwise_keys (cs : HTTPRouteConfigs)
    (h : cs.Pairwise (fun a b => a.1 < b.1)) :
    (HTTPRouteConfigs.normalize cs).Pairwise (fun a b => a.1 < b.1) := by
  unfold HTTPRouteConfigs.normalize
  exact (List.pairwise_map).mpr (h.imp (fun hab => hab))

/-- The port-indexed outbound route map has strictly ascending (hence
pairwise distinct) port keys. -/
theorem buildOutboundHTTPRoutes_keys_lt (mesh : MeshConfig) (sidecar : Node)
    (instances : List ServiceInstance) (services : List Service)
    (config : IstioConfigStore) :
    (buildOutboundHTTPRoutes mesh sidecar instances services config).Pairwise
      (fun a b => a.1 < b.1) := by
  simp only [buildOutboundHTTPRoutes]
  apply normalize_pairwise_keys
  apply foldl_preserve (fun cs : HTTPRouteConfigs => cs.Pairwise (fun a b => a.1 < b.1))
  · intro b a hb
    apply foldl_preserve (fun cs : HTTPRouteConfigs => cs.Pairwise (fun a b => a.1 < b.1))
    · intro b₂ a₂ hb₂
      split
      · exact hb₂
      · split
        · exact updatePort_keys_lt _ _ _ hb₂
        · exact hb₂
    · exact hb
  · exact List.Pairwise.nil

theorem buildHTTPRoute_clustersRef (rule : RouteRule) (servicePort : Port) :
    (buildHTTPRoute rule servicePort).clustersRef =
      [buildOutboundCluster rule.Destination servicePort] := by
  unfold buildHTTPRoute
  cases rule.uri with
  | none => rfl
  | some u =>
    cases u with
    | prefixOf s => rfl
    | exactOf s => rfl

theorem destRouteRules_clusters (service : Service) (servicePort : Port) :
    ∀ (rules : List RouteRule) (r : HTTPRoute),
      r ∈ (destRouteRules service servicePort rules).1 →
      ∀ c ∈ r.clustersRef, ∃ hst, c.Name = ClusterName.outbound hst servicePort.Port := by
  intro rules
  induction rules with
  | nil =>
    intro r hr
    simp [destRouteRules] at hr
  | cons rule rest ih =>
    intro r hr c hc
    by_cases hdst : rule.Destination = service.Hostname
    · by_cases hca : (buildHTTPRoute rule servicePort).CatchAll = true
      · have hr₂ : r ∈ [buildHTTPRoute rule servicePort] := by
          rw [show (destRouteRules service servicePort (rule :: rest)).1 =
              [buildHTTPRoute rule servicePort] from by
            simp [destRouteRules, hdst, hca]] at hr
          exact hr
        rw [List.mem_singleton] at hr₂
        subst hr₂
        rw [buildHTTPRoute_clustersRef] at hc
        rw [List.mem_singleton] at hc
        exact ⟨rule.Destination, by rw [hc]; rfl⟩
      · have hr₂ : r ∈ buildHTTPRoute rule servicePort ::
            (destRouteRules service servicePort rest).1 := by
          rw [show (destRouteRules service servicePort (rule :: rest)).1 =
              buildHTTPRoute rule servicePort ::
                (destRouteRules service servicePort rest).1 from by
            simp [destRouteRules, hdst, hca]] at hr
          exact hr
        rcases List.mem_cons.mp hr₂ with hr₃ | hr₃
        · subst hr₃
          rw [buildHTTPRoute_clustersRef] at hc
          rw [List.mem_singleton] at hc
          exact ⟨rule.Destination, by rw [hc]; rfl⟩
        · exact ih r hr₃ c hc
    · have hr₂ : r ∈ (destRouteRules service servicePort rest).1 := by
        rw [show (destRouteRules service servicePort (rule :: rest)).1 =
            (destRouteRules service servicePort rest).1 from by
          simp [destRouteRules, hdst]] at hr
        exact hr
      exact ih r hr₂ c hc

theorem buildDestinationHTTPRoutes_clusters (service : Service) (servicePort : Port)
    (rules : List RouteRule) (r : HTTPRoute)
    (hr : r ∈ buildDestinationHTTPRoutes service servicePort rules) :
    ∀ c ∈ r.clustersRef, ∃ hst, c.Name = ClusterName.outbound hst servicePort.Port := by
  intro c hc
  cases hP : servicePort.Protocol with
  | http | http2 | grpc =>
    simp only [buildDestinationHTTPRoutes, hP] at hr
    by_cases hstep : (destRouteRules service servicePort rules).2 = true
    · rw [if_pos hstep] at hr
      rcases List.mem_append.mp hr with hr₂ | hr₂
      · exact destRouteRules_clusters service servicePort rules r hr₂ c hc
      · rw [List.mem_singleton] at hr₂
        subst hr₂
        have hc₂ : c ∈ [buildOutboundCluster service.Hostname servicePort] := hc
        rw [List.mem_singleton] at hc₂
        exact ⟨service.Hostname, by rw [hc₂]; rfl⟩
    · rw [if_neg hstep] at hr
      exact destRouteRules_clusters service servicePort rules r hr c hc
  | https =>
    simp only [buildDestinationHTTPRoutes, hP] at hr
    by_cases hext : service.External = true
    · rw [if_pos hext] at hr
      rw [List.mem_singleton] at hr
      subst hr
      have hc₂ : c ∈ [buildOutboundCluster service.Hostname servicePort] := hc
      rw [List.mem_singleton] at hc₂
      exact ⟨service.Hostname, by rw [hc₂]; rfl⟩
    · rw [if_neg hext] at hr
      cases hr
  | tcp =>
    simp only [buildDestinationHTTPRoutes, hP] at hr
    cases hr
  | udp =>
    simp only [buildDestinationHTTPRoutes, hP] at hr
    cases hr

theorem externalizeRoute_names (mesh : MeshConfig) (service : Service) (route : HTTPRoute)
    (c : Cluster) (hc : c ∈ (externalizeRoute mesh service route).clustersRef) :
    ∃ c₀ ∈ route.clustersRef, c.Name = c₀.Name := by
  unfold externalizeRoute at hc
  obtain ⟨c₀, hc₀, rfl⟩ := List.mem_map.mp hc
  exact ⟨c₀, hc₀, rfl⟩

theorem clustersOf_append_host (rc : HTTPRouteConfig) (host : VirtualHost) :
    HTTPRouteConfig.clustersOf ⟨rc.VirtualHosts ++ [host]⟩ =
      rc.clustersOf ++ (host.Routes.map (fun r => r.clustersRef)).flatten := by
  simp [HTTPRouteConfig.clustersOf]

theorem updatePort_clusters_inv (port : Nat) (f : HTTPRouteConfig → HTTPRouteConfig)
    (hf : ∀ rc c, c ∈ (f rc).clustersOf →
      c ∈ rc.clustersOf ∨ ∃ hst, c.Name = ClusterName.outbound hst port) :
    ∀ cs : HTTPRouteConfigs,
      (∀ pc ∈ cs, ∀ c ∈ pc.2.clustersOf, ∃ hst, c.Name = ClusterName.outbound hst pc.1) →
      ∀ pc ∈ HTTPRouteConfigs.updatePort port f cs, ∀ c ∈ pc.2.clustersOf,
        ∃ hst, c.Name = ClusterName.outbound hst pc.1 := by
  intro cs
  induction cs with
  | nil =>
    intro _ pc hpc c hc
    simp [HTTPRouteConfigs.updatePort] at hpc
    subst hpc
    rcases hf ⟨[]⟩ c hc with hmem | hout
    · simp [HTTPRouteConfig.clustersOf] at hmem
    · exact hout
  | cons hd rest ih =>
    intro hcs pc hpc c hc
    obtain ⟨pk, rc0⟩ := hd
    by_cases h₁ : port < pk
    · rw [show HTTPRouteConfigs.updatePort port f ((pk, rc0) :: rest) =
          (port, f ⟨[]⟩) :: (pk, rc0) :: rest from by
        simp [HTTPRouteConfigs.updatePort, h₁]] at hpc
      rcases List.mem_cons.mp hpc with hpc₂ | hpc₂
      · subst hpc₂
        rcases hf ⟨[]⟩ c hc with hmem | hout
        · simp [HTTPRouteConfig.clustersOf] at hmem
        · exact hout
      · exact hcs pc hpc₂ c hc
    · by_cases h₂ : port = pk
      · rw [show HTTPRouteConfigs.updatePort port f ((pk, rc0) :: rest) =
            (pk, f rc0) :: rest from by
          simp [HTTPRouteConfigs.updatePort, h₁, h₂]] at hpc
        rcases List.mem_cons.mp hpc with hpc₂ | hpc₂
        · subst hpc₂
          rcases hf rc0 c hc with hmem | hout
          · exact hcs (pk, rc0) (List.mem_cons_self _ _) c hmem
          · rw [← h₂]
            exact hout
        · exact hcs pc (List.mem_cons_of_mem _ hpc₂) c hc
      · rw [show HTTPRouteConfigs.updatePort port f ((pk, rc0) :: rest) =
            (pk, rc0) :: HTTPRouteConfigs.updatePort port f rest from by
          simp [HTTPRouteConfigs.updatePort, h₁, h₂]] at hpc
        rcases List.mem_cons.mp hpc with hpc₂ | hpc₂
        · subst hpc₂
          exact hcs (pk, rc0) (List.mem_cons_self _ _) c hc
        · exact ih (fun pc₃ hpc₃ => hcs pc₃ (List.mem_cons_of_mem _ hpc₃)) pc hpc₂ c hc

theorem normalize_clusters_inv (cs : HTTPRouteConfigs)
    (h : ∀ pc ∈ cs, ∀ c ∈ pc.2.clustersOf, ∃ hst, c.Name = ClusterName.outbound hst pc.1) :
    ∀ pc ∈ HTTPRouteConfigs.normalize cs, ∀ c ∈ pc.2.clustersOf,
      ∃ hst, c.Name = ClusterName.outbound hst pc.1 := by
  intro pc hpc c hc
  unfold HTTPRouteConfigs.normalize at hpc
  obtain ⟨pc₀, hpc₀, rfl⟩ := List.mem_map.mp hpc
  have hc₀ : c ∈ pc₀.2.clustersOf := by
    have hperm : (pc₀.2.VirtualHosts.insertionSort vhLe).Perm pc₀.2.VirtualHosts :=
      List.perm_insertionSort _ _
    exact ((hperm.map
      (fun vh => (vh.Routes.map (fun r => r.clustersRef)).flatten)).flatten).mem_iff.mp hc
  exact h pc₀ hpc₀ c hc₀

/-- Every cluster referenced under port key `k` of the outbound route map
is an outbound cluster for port `k`. -/
theorem buildOutboundHTTPRoutes_clusters_inv (mesh : MeshConfig) (sidecar : Node)
    (instances : List ServiceInstance) (services : List Service)
    (config : IstioConfigStore) :
    ∀ pc ∈ buildOutboundHTTPRoutes mesh sidecar instances services config,
      ∀ c ∈ pc.2.clustersOf, ∃ hst, c.Name = ClusterName.outbound hst pc.1 := by
  simp only [buildOutboundHTTPRoutes]
  apply normalize_clusters_inv
  apply foldl_preserve (fun cs : HTTPRouteConfigs =>
    ∀ pc ∈ cs, ∀ c ∈ pc.2.clustersOf, ∃ hst, c.Name = ClusterName.outbound hst pc.1)
  · intro b service hb
    apply foldl_preserve (fun cs : HTTPRouteConfigs =>
      ∀ pc ∈ cs, ∀ c ∈ pc.2.clustersOf, ∃ hst, c.Name = ClusterName.outbound hst pc.1)
    · intro b₂ servicePort hb₂
      split
      · exact hb₂
      · split
        · apply updatePort_clusters_inv _ _ ?_ _ hb₂
          intro rc c hc
          rw [clustersOf_append_host] at hc
          rcases List.mem_append.mp hc with hc₂ | hc₂
          · exact Or.inl hc₂
          · right
            rw [List.mem_flatten] at hc₂
            obtain ⟨blk, hblk, hcblk⟩ := hc₂
            obtain ⟨r, hr, rfl⟩ := List.mem_map.mp hblk
            have hr₂ : r ∈ (if service.External = true then
                List.map (externalizeRoute mesh service)
                  (buildDestinationHTTPRoutes service servicePort config.routeRulesBySource)
              else buildDestinationHTTPRoutes service servicePort config.routeRulesBySource) := hr
            by_cases hext : service.External = true
            · rw [if_pos hext] at hr₂
              obtain ⟨r₀, hr₀, rfl⟩ := List.mem_map.mp hr₂
              obtain ⟨c₀, hc₀, hnm⟩ := externalizeRoute_names mesh service r₀ c hcblk
              obtain ⟨hst, hn⟩ := buildDestinationHTTPRoutes_clusters service servicePort
                config.routeRulesBySource r₀ hr₀ c₀ hc₀
              exact ⟨hst, hnm.trans hn⟩
            · rw [if_neg hext] at hr₂
              exact buildDestinationHTTPRoutes_clusters service servicePort
                config.routeRulesBySource r hr₂ c hcblk
        · exact hb₂
    · exact hb
  · intro pc hpc
    cases hpc

theorem buildOutboundListenersEnum_sperm (e₁ e₂ : List String) (h : e₁.Perm e₂)
    (p : List (Nat × HTTPRouteConfig)) (mesh : MeshConfig) (sidecar : Node)
    (instances : List ServiceInstance) (services : List Service) :
    buildOutboundListenersEnum e₁ p mesh sidecar instances services =
      buildOutboundListenersEnum e₂ p mesh sidecar instances services := by
  simp only [buildOutboundListenersEnum, buildHTTPListenerEnum_perm e₁ e₂ h]

theorem sidecarBaseEnum_sperm (e₁ e₂ : List String) (h : e₁.Perm e₂)
    (p : List (Nat × HTTPRouteConfig)) (env : Environment) (sidecar : Node) :
    sidecarBaseEnum e₁ p env sidecar = sidecarBaseEnum e₂ p env sidecar := by
  simp only [sidecarBaseEnum, buildOutboundListenersEnum_sperm e₁ e₂ h,
    buildInboundListenersEnum_perm e₁ e₂ h]

theorem buildSidecarEnum_sperm (e₁ e₂ : List String) (h : e₁.Perm e₂)
    (p : List (Nat × HTTPRouteConfig)) (env : Environment) (sidecar : Node) :
    buildSidecarEnum e₁ p env sidecar = buildSidecarEnum e₂ p env sidecar := by
  simp only [buildSidecarEnum, sidecarBaseEnum_sperm e₁ e₂ h,
    buildHTTPListenerEnum_perm e₁ e₂ h]

/-- The outbound HTTP listeners built from a permuted port enumeration make
the same first-match choice at every address, since their addresses are the
pairwise-distinct wildcard ports. -/
theorem outboundListeners_find_eq (e : List String) (mesh : MeshConfig) (sidecar : Node)
    (instances : List ServiceInstance) (p p₀ : List (Nat × HTTPRouteConfig))
    (hp : p.Perm p₀) (hne : p.Pairwise (fun a b => a.1 ≠ b.1)) (a : NetAddr) :
    ((p.map (fun pc => buildHTTPListenerEnum e mesh sidecar instances (Option.some pc.2)
        WildcardAddress pc.1 (toString pc.1) false)).map
      (fun l => { l with BindToPort := false })).find? (fun x => x.Address == a) =
    ((p₀.map (fun pc => buildHTTPListenerEnum e mesh sidecar instances (Option.some pc.2)
        WildcardAddress pc.1 (toString pc.1) false)).map
      (fun l => { l with BindToPort := false })).find? (fun x => x.Address == a) := by
  apply find?_perm_unique _ _ _ ((hp.map _).map _)
  refine (List.pairwise_map).mpr ((List.pairwise_map).mpr (hne.imp ?_))
  intro b c hbc hand
  obtain ⟨h₁, h₂⟩ := hand
  have hba : (⟨WildcardAddress, b.1⟩ : NetAddr) = a := beq_iff_eq.mp h₁
  have hca : (⟨WildcardAddress, c.1⟩ : NetAddr) = a := beq_iff_eq.mp h₂
  exact hbc (congrArg NetAddr.port (hba.trans hca.symm))

/-- The outbound clusters contributed by a permuted port enumeration make
the same first-match choice at every name: a cluster name embeds its port,
and the per-port blocks have pairwise-distinct ports. -/
theorem outboundClusters_find_eq (p p₀ : List (Nat × HTTPRouteConfig))
    (hp : p.Perm p₀) (hne : p.Pairwise (fun a b => a.1 ≠ b.1))
    (hinvp : ∀ pc ∈ p, ∀ c ∈ pc.2.clustersOf, ∃ hst, c.Name = ClusterName.outbound hst pc.1)
    (n : ClusterName) :
    ((p.map (fun pc => HTTPRouteConfig.clustersOf pc.2)).flatten).find?
      (fun x => x.Name == n) =
    ((p₀.map (fun pc => HTTPRouteConfig.clustersOf pc.2)).flatten).find?
      (fun x => x.Name == n) := by
  apply find?_flatten_perm _ _ _ (hp.map _)
  refine (List.pairwise_map).mpr (hne.imp_of_mem ?_)
  intro pc₁ pc₂ h₁m h₂m hbc hand
  obtain ⟨⟨x, hx, hqx⟩, ⟨y, hy, hqy⟩⟩ := hand
  obtain ⟨hst₁, hn₁⟩ := hinvp pc₁ h₁m x hx
  obtain ⟨hst₂, hn₂⟩ := hinvp pc₂ h₂m y hy
  have hxy : x.Name = y.Name := (beq_iff_eq.mp hqx).trans (beq_iff_eq.mp hqy).symm
  rw [hn₁, hn₂] at hxy
  injection hxy with h₁ h₂
  exact hbc h₂

/-- `buildSidecar` is unchanged when the port-indexed outbound route map is
ranged over in any order. -/
theorem buildSidecarEnum_pperm (env : Environment) (sidecar : Node)
    (p : List (Nat × HTTPRouteConfig))
    (hp : p.Perm (buildOutboundHTTPRoutes env.Mesh sidecar env.hostInstances env.services
      env.IstioConfigStore)) :
    buildSidecarEnum (serviceHostnames env.hostInstances) p env sidecar =
      buildSidecarEnum (serviceHostnames env.hostInstances)
        (buildOutboundHTTPRoutes env.Mesh sidecar env.hostInstances env.services
          env.IstioConfigStore) env sidecar := by
  have hkeys := buildOutboundHTTPRoutes_keys_lt env.Mesh sidecar env.hostInstances
    env.services env.IstioConfigStore
  have hinv := buildOutboundHTTPRoutes_clusters_inv env.Mesh sidecar env.hostInstances
    env.services env.IstioConfigStore
  have hne : p.Pairwise (fun a b => a.1 ≠ b.1) :=
    (hp.pairwise_iff (fun hab => Ne.symm hab)).mpr (hkeys.imp (fun hab => Nat.ne_of_lt hab))
  have hinvp : ∀ pc ∈ p, ∀ c ∈ pc.2.clustersOf,
      ∃ hst, c.Name = ClusterName.outbound hst pc.1 :=
    fun pc hpc => hinv pc (hp.mem_iff.mp hpc)
  by_cases hplp : env.Mesh.ProxyListenPort > 0
  · have hLperm : ((buildInboundListenersEnum (serviceHostnames env.hostInstances) env.Mesh
        sidecar env.hostInstances env.IstioConfigStore).1 ++
          ((buildOutboundTCPListeners env.Mesh env.services).1 ++
            p.map (fun pc => buildHTTPListenerEnum (serviceHostnames env.hostInstances)
              env.Mesh sidecar env.hostInstances (Option.some pc.2) WildcardAddress pc.1
              (toString pc.1) false))).Perm
        ((buildInboundListenersEnum (serviceHostnames env.hostInstances) env.Mesh
        sidecar env.hostInstances env.IstioConfigStore).1 ++
          ((buildOutboundTCPListeners env.Mesh env.services).1 ++
            (buildOutboundHTTPRoutes env.Mesh sidecar env.hostInstances env.services
              env.IstioConfigStore).map (fun pc => buildHTTPListenerEnum
              (serviceHostnames env.hostInstances) env.Mesh sidecar env.hostInstances
              (Option.some pc.2) WildcardAddress pc.1 (toString pc.1) false))) :=
      ((hp.map _).append_left _).append_left _
    obtain ⟨K, KC, hK₁, hK₂⟩ := appendMgmt_perm_decomp
      ((buildMgmtPortListeners env.Mesh env.managementPorts sidecar.IPAddress).1.zip
        (buildMgmtPortListeners env.Mesh env.managementPorts sidecar.IPAddress).2)
      _ _
      ((buildInboundListenersEnum (serviceHostnames env.hostInstances) env.Mesh sidecar
        env.hostInstances env.IstioConfigStore).2 ++
        ((buildOutboundTCPListeners env.Mesh env.services).2 ++
          (p.map (fun pc => HTTPRouteConfig.clustersOf pc.2)).flatten))
      ((buildInboundListenersEnum (serviceHostnames env.hostInstances) env.Mesh sidecar
        env.hostInstances env.IstioConfigStore).2 ++
        ((buildOutboundTCPListeners env.Mesh env.services).2 ++
          ((buildOutboundHTTPRoutes env.Mesh sidecar env.hostInstances env.services
            env.IstioConfigStore).map (fun pc => HTTPRouteConfig.clustersOf pc.2)).flatten))
      hLperm
    simp only [buildSidecarEnum, if_pos hplp, sidecarBaseEnum, buildOutboundListenersEnum_eq,
      hK₁, hK₂]
    by_cases hphp : env.Mesh.ProxyHttpPort > 0
    · simp only [if_pos hphp]
      refine Prod.ext ?_ ?_
      · apply normalizeListeners_ext
        · exact (((hLperm.append_right K).map _).append_right _).append_right _
        · intro a
          simp only [List.map_append, List.find?_append,
            outboundListeners_find_eq (serviceHostnames env.hostInstances) env.Mesh sidecar
              env.hostInstances p _ hp hne a]
      · apply normalizeClusters_ext
        · exact (((((hp.map _).flatten).append_left _).append_left _).append_right _).append_right _
        · intro n
          simp only [List.find?_append, outboundClusters_find_eq p _ hp hne hinvp n]
    · simp only [if_neg hphp]
      refine Prod.ext ?_ ?_
      · apply normalizeListeners_ext
        · exact ((hLperm.append_right K).map _).append_right _
        · intro a
          simp only [List.map_append, List.find?_append,
            outboundListeners_find_eq (serviceHostnames env.hostInstances) env.Mesh sidecar
              env.hostInstances p _ hp hne a]
      · apply normalizeClusters_ext
        · exact ((((hp.map _).flatten).append_left _).append_left _).append_right KC
        · intro n
          simp only [List.find?_append, outboundClusters_find_eq p _ hp hne hinvp n]
  · simp [buildSidecarEnum, hplp]

/-- Any valid pair of map enumerations yields the canonical sidecar. -/
theorem buildSidecarEnum_canonical (env : Environment) (sidecar : Node)
    (e : List String) (p : List (Nat × HTTPRouteConfig))
    (he : e.Perm (serviceHostnames env.hostInstances))
    (hp : p.Perm (buildOutboundHTTPRoutes env.Mesh sidecar env.hostInstances env.services
      env.IstioConfigStore)) :
    buildSidecarEnum e p env sidecar = buildSidecar env sidecar := by
  rw [buildSidecarEnum_sperm e (serviceHostnames env.hostInstances) he p env sidecar]
  exact buildSidecarEnum_pperm env sidecar p hp

/-- C1: config generation is deterministic.  The two Go map-range sites
(the service-name set of `buildHTTPListener`, config.go lines 267-281, and
the port-indexed route map of `buildOutboundListeners`, lines 357-370) may
enumerate their maps in any order, independently in the listener pass and
the cluster pass of `Render`; every choice produces the same canonical
serialized configuration, hence the same fingerprint, for a fixed
environment snapshot and node. -/
theorem render_deterministic (env : Environment) (node : Node)
    (eL eC : List String) (pL pC : List (Nat × HTTPRouteConfig))
    (heL : eL.Perm (serviceHostnames env.hostInstances))
    (heC : eC.Perm (serviceHostnames env.hostInstances))
    (hpL : pL.Perm (buildOutboundHTTPRoutes env.Mesh node env.hostInstances env.services
      env.IstioConfigStore))
    (hpC : pC.Perm (buildOutboundHTTPRoutes env.Mesh node env.hostInstances env.services
      env.IstioConfigStore)) :
    renderEnum eL pL eC pC env node = render env node ∧
    fingerprint (renderEnum eL pL eC pC env node) = fingerprint (render env node) := by
  have h₁ := buildSidecarEnum_canonical env node eL pL heL hpL
  have h₂ := buildSidecarEnum_canonical env node eC pC heC hpC
  have hmain : renderEnum eL pL eC pC env node = render env node := by
    simp only [renderEnum, render, h₁, h₂, buildSidecar]
  exact ⟨hmain, congrArg fingerprint hmain⟩

/-- C1 witness: on a concrete two-service environment, rendering with the
service-name set and the route-map entries enumerated in reverse still
produces the canonical output byte for byte. -/
theorem render_deterministic_witness :
    renderEnum (serviceHostnames envTwo.hostInstances).reverse
      (buildOutboundHTTPRoutes envTwo.Mesh node0 envTwo.hostInstances envTwo.services
        envTwo.IstioConfigStore).reverse
      (serviceHostnames envTwo.hostInstances)
      (buildOutboundHTTPRoutes envTwo.Mesh node0 envTwo.hostInstances envTwo.services
        envTwo.IstioConfigStore) envTwo node0 = render envTwo node0 :=
  (render_deterministic envTwo node0 _ _ _ _ (List.reverse_perm _) (List.Perm.refl _)
    (List.reverse_perm _) (List.Perm.refl _)).1

end Pilot
